import Mathlib

/-!
Verification of the mooltipage core: document-tree mutation primitives
(detatchNode, appendChild, prependChild, appendSibling, prependSibling,
replaceNode, swapNode), the pipeline cache, fragment fetching with
clone-on-read, resource linking and expression compilation.

The document tree is embedded as an explicit heap: node identities are
natural numbers, and the heap maps each identity to the record of fields
that the TypeScript Node objects carry (parentNode, prevSibling,
nextSibling, childNodes, plus a flag marking DocumentNode instances).
Every mutation primitive is translated statement by statement from the
source, with reads and writes sequenced exactly as in the code.
-/

/-- Fields of one DOM node, mirroring the TypeScript Node class:
parent link, the two sibling links, the ordered child list, and whether
the node is a DocumentNode (the only type information the mutation
primitives inspect). -/
structure NodeData where
  parentNode : Option Nat
  prevSibling : Option Nat
  nextSibling : Option Nat
  childNodes : List Nat
  isDocument : Bool

/-- Heap of DOM nodes: node identities are natural numbers below size;
nodes is the store. -/
structure Dom where
  size : Nat
  nodes : Nat → NodeData

/-- Read the node record stored at identity i. -/
def getN (d : Dom) (i : Nat) : NodeData := d.nodes i

/-- Write at identity i, transforming the stored record by f. -/
def updN (d : Dom) (i : Nat) (f : NodeData → NodeData) : Dom :=
  { d with nodes := fun j => if j = i then f (d.nodes j) else d.nodes j }

theorem getN_updN (d : Dom) (i j : Nat) (f : NodeData → NodeData) :
    getN (updN d i f) j = if j = i then f (getN d j) else getN d j := rfl

@[simp] theorem size_updN (d : Dom) (i : Nat) (f : NodeData → NodeData) :
    (updN d i f).size = d.size := rfl

theorem updN_id (d : Dom) (i : Nat) (f : NodeData → NodeData)
    (h : f (getN d i) = getN d i) : updN d i f = d := by
  cases d with
  | mk size nodes =>
    simp only [updN]
    congr 1
    funext j
    by_cases hj : j = i
    · subst hj; simpa [getN] using h
    · simp [hj]

/-- Return the first node from a list, or none if the list is empty
(source: getFirstNode). -/
def getFirstNode (nodes : List Nat) : Option Nat := nodes.head?

/-- Return the last node from a list, or none if the list is empty
(source: getLastNode). -/
def getLastNode (nodes : List Nat) : Option Nat := nodes.getLast?

/-- Detatch a node and its children from the DOM (source: detatchNode).
Each statement of the source is one sequenced heap access: remove the
node from its parent's child list, bridge the two sibling links, then
null the node's own links. -/
def detatchNode (d : Dom) (node : Nat) : Dom :=
  let d1 := match (getN d node).parentNode with
    | some p => updN d p (fun nd => { nd with childNodes := nd.childNodes.filter (fun c => c != node) })
    | none => d
  let d2 := match (getN d1 node).prevSibling with
    | some ps => updN d1 ps (fun nd => { nd with nextSibling := (getN d1 node).nextSibling })
    | none => d1
  let d3 := match (getN d2 node).nextSibling with
    | some ns => updN d2 ns (fun nd => { nd with prevSibling := (getN d2 node).prevSibling })
    | none => d2
  let d4 := updN d3 node (fun nd => { nd with prevSibling := none })
  let d5 := updN d4 node (fun nd => { nd with nextSibling := none })
  updN d5 node (fun nd => { nd with parentNode := none })

/-- Append one node to another as a child, at the end of the parent's
child list (source: appendChild). -/
def appendChild (d : Dom) (parent child : Nat) : Dom :=
  let d1 := detatchNode d child
  let d2 := match getLastNode (getN d1 parent).childNodes with
    | some lc =>
        let dA := updN d1 lc (fun nd => { nd with nextSibling := some child })
        updN dA child (fun nd => { nd with prevSibling := some lc })
    | none => d1
  let d3 := updN d2 parent (fun nd => { nd with childNodes := nd.childNodes ++ [child] })
  updN d3 child (fun nd => { nd with parentNode := some parent })

/-- Append one node to another as a child, at the start of the parent's
child list (source: prependChild). -/
def prependChild (d : Dom) (parent child : Nat) : Dom :=
  let d1 := detatchNode d child
  let d2 := match getFirstNode (getN d1 parent).childNodes with
    | some fc =>
        let dA := updN d1 fc (fun nd => { nd with prevSibling := some child })
        updN dA child (fun nd => { nd with nextSibling := some fc })
    | none => d1
  let d3 := updN d2 parent (fun nd => { nd with childNodes := child :: nd.childNodes })
  updN d3 child (fun nd => { nd with parentNode := some parent })

/-- Append a list of nodes to a parent (source: appendChildNodes).
The source iterates over the array reference passed in; since detatchNode
replaces the owner's childNodes with a fresh filtered array, that
reference is a stable snapshot, so a plain fold is the exact semantics. -/
def appendChildNodes (d : Dom) (parent : Nat) (childNodes : List Nat) : Dom :=
  childNodes.foldl (fun acc c => appendChild acc parent c) d

/-- Index of the first occurrence of x, or -1 when absent, matching
JavaScript Array.prototype.indexOf. -/
def jsIndexOf : List Nat → Nat → Int
  | [], _ => -1
  | y :: ys, x =>
    if y = x then 0
    else
      let r := jsIndexOf ys x
      if r = -1 then -1 else r + 1

/-- Insertion with JavaScript Array.prototype.splice(start, 0, x) index
semantics: a negative start counts from the end (clamped at 0), a start
beyond the length is clamped to the length. -/
def jsSpliceInsert (l : List Nat) (start : Int) (x : Nat) : List Nat :=
  let pos : Nat := if start < 0 then ((l.length : Int) + start).toNat else min start.toNat l.length
  l.insertIdx pos x

/-- Body of appendSibling past the DocumentNode guard (source statements
of appendSibling in order: detach, parent splice, sibling relink). -/
def appendSiblingCore (d : Dom) (node after : Nat) : Dom :=
  let d1 := detatchNode d node
  let parent := (getN d1 after).parentNode
  let d2 := match parent with
    | some p =>
        let dA := updN d1 node (fun nd => { nd with parentNode := some p })
        let afterIndex := jsIndexOf (getN dA p).childNodes after
        updN dA p (fun nd => { nd with childNodes := jsSpliceInsert nd.childNodes (afterIndex + 1) node })
    | none => d1
  let d3 := match (getN d2 after).nextSibling with
    | some ns =>
        let dA := updN d2 node (fun nd => { nd with nextSibling := some ns })
        updN dA ns (fun nd => { nd with prevSibling := some node })
    | none => d2
  let d4 := updN d3 after (fun nd => { nd with nextSibling := some node })
  updN d4 node (fun nd => { nd with prevSibling := some after })

/-- Place a node immediately after another as a sibling; throws when the
anchor is a DocumentNode (source: appendSibling). -/
def appendSibling (d : Dom) (node after : Nat) : Except String Dom :=
  if (getN d after).isDocument then
    Except.error "Attempting to append after DocumentNode"
  else
    Except.ok (appendSiblingCore d node after)

/-- Body of prependSibling past the DocumentNode guard. -/
def prependSiblingCore (d : Dom) (node before : Nat) : Dom :=
  let d1 := detatchNode d node
  let parent := (getN d1 before).parentNode
  let d2 := match parent with
    | some p =>
        let dA := updN d1 node (fun nd => { nd with parentNode := some p })
        let beforeIndex := jsIndexOf (getN dA p).childNodes before
        updN dA p (fun nd => { nd with childNodes := jsSpliceInsert nd.childNodes beforeIndex node })
    | none => d1
  let d3 := match (getN d2 before).prevSibling with
    | some ps =>
        let dA := updN d2 node (fun nd => { nd with prevSibling := some ps })
        updN dA ps (fun nd => { nd with nextSibling := some node })
    | none => d2
  let d4 := updN d3 before (fun nd => { nd with prevSibling := some node })
  updN d4 node (fun nd => { nd with nextSibling := some before })

/-- Place a node immediately before another as a sibling; throws when the
anchor is a DocumentNode (source: prependSibling). -/
def prependSibling (d : Dom) (node before : Nat) : Except String Dom :=
  if (getN d before).isDocument then
    Except.error "Attempting to prepend before DocumentNode"
  else
    Except.ok (prependSiblingCore d node before)

/-- Loop of replaceNode: each replacement is appended as a sibling of the
previously placed node, starting from the node being removed. -/
def replaceNodeLoop (d : Dom) (prevNode : Nat) : List Nat → Except String Dom
  | [] => Except.ok d
  | newNode :: rest => do
    let d' ← appendSibling d newNode prevNode
    replaceNodeLoop d' newNode rest

/-- Replace a node in the DOM with an ordered list of replacements, then
detach the removed node (source: replaceNode; the method call
prevNode.appendSibling(newNode) is the free function appendSibling with
prevNode as the anchor). -/
def replaceNode (d : Dom) (remove : Nat) (replacements : List Nat) : Except String Dom := do
  let d' ← replaceNodeLoop d remove replacements
  Except.ok (detatchNode d' remove)

/-- Swap a node in the DOM for another: the removed node's children are
appended to the replacement, then the removed node is replaced in place
(source: swapNode; remove.replaceSelf(replacement) is replaceNode with a
single replacement). -/
def swapNode (d : Dom) (remove replacement : Nat) : Except String Dom :=
  let d1 := appendChildNodes d replacement (getN d remove).childNodes
  replaceNode d1 remove [replacement]

/-- True when an Except value is an error. -/
def isErr {ε α : Type} : Except ε α → Bool
  | Except.error _ => true
  | Except.ok _ => false

/-! Helper facts about the record updates used by the primitives. -/

theorem nodeData_eta (nd : NodeData) :
    ({ parentNode := nd.parentNode, prevSibling := nd.prevSibling,
       nextSibling := nd.nextSibling, childNodes := nd.childNodes,
       isDocument := nd.isDocument } : NodeData) = nd := rfl

/-- C5 helper: detaching a node whose parent and sibling links are all
null does not change the heap. -/
theorem detatchNode_of_detached (d : Dom) (node : Nat)
    (hp : (getN d node).parentNode = none)
    (hprev : (getN d node).prevSibling = none)
    (hnext : (getN d node).nextSibling = none) :
    detatchNode d node = d := by
  have e1 : updN d node (fun nd => { nd with prevSibling := none }) = d := by
    apply updN_id
    cases h : getN d node
    rw [h] at hprev
    simp_all
  have e2 : updN d node (fun nd => { nd with nextSibling := none }) = d := by
    apply updN_id
    cases h : getN d node
    rw [h] at hnext
    simp_all
  have e3 : updN d node (fun nd => { nd with parentNode := none }) = d := by
    apply updN_id
    cases h : getN d node
    rw [h] at hp
    simp_all
  unfold detatchNode
  simp only [hp, hprev, hnext]
  rw [e1, e2, e3]

/-! Projection frame lemmas: an update that does not touch a field leaves
that field unchanged at every identity. -/

theorem getN_updN_self (d : Dom) (i : Nat) (f : NodeData → NodeData) :
    getN (updN d i f) i = f (getN d i) := by simp [getN_updN]

theorem getN_updN_ne (d : Dom) (i m : Nat) (f : NodeData → NodeData)
    (h : m ≠ i) : getN (updN d i f) m = getN d m := by simp [getN_updN, h]

theorem updN_keep_parentNode (d : Dom) (i m : Nat) (f : NodeData → NodeData)
    (hf : ∀ nd, (f nd).parentNode = nd.parentNode) :
    (getN (updN d i f) m).parentNode = (getN d m).parentNode := by
  by_cases h : m = i <;> simp [getN_updN, h, hf]

theorem updN_keep_prevSibling (d : Dom) (i m : Nat) (f : NodeData → NodeData)
    (hf : ∀ nd, (f nd).prevSibling = nd.prevSibling) :
    (getN (updN d i f) m).prevSibling = (getN d m).prevSibling := by
  by_cases h : m = i <;> simp [getN_updN, h, hf]

theorem updN_keep_nextSibling (d : Dom) (i m : Nat) (f : NodeData → NodeData)
    (hf : ∀ nd, (f nd).nextSibling = nd.nextSibling) :
    (getN (updN d i f) m).nextSibling = (getN d m).nextSibling := by
  by_cases h : m = i <;> simp [getN_updN, h, hf]

theorem updN_keep_childNodes (d : Dom) (i m : Nat) (f : NodeData → NodeData)
    (hf : ∀ nd, (f nd).childNodes = nd.childNodes) :
    (getN (updN d i f) m).childNodes = (getN d m).childNodes := by
  by_cases h : m = i <;> simp [getN_updN, h, hf]

theorem updN_keep_isDocument (d : Dom) (i m : Nat) (f : NodeData → NodeData)
    (hf : ∀ nd, (f nd).isDocument = nd.isDocument) :
    (getN (updN d i f) m).isDocument = (getN d m).isDocument := by
  by_cases h : m = i <;> simp [getN_updN, h, hf]

/-! Effect and frame lemmas for detatchNode. -/


theorem detatch_size (d : Dom) (node : Nat) :
    (detatchNode d node).size = d.size := by
  unfold detatchNode
  dsimp only
  repeat' split
  all_goals rfl

theorem detatch_self_links (d : Dom) (node : Nat) :
    (getN (detatchNode d node) node).parentNode = none ∧
    (getN (detatchNode d node) node).prevSibling = none ∧
    (getN (detatchNode d node) node).nextSibling = none := by
  unfold detatchNode
  simp [getN_updN]

theorem detatch_parentNode_frame (d : Dom) (node m : Nat) (hm : m ≠ node) :
    (getN (detatchNode d node) m).parentNode = (getN d m).parentNode := by
  unfold detatchNode
  dsimp only
  repeat' split
  all_goals simp [getN_updN, apply_ite NodeData.parentNode, hm]

theorem detatch_isDocument_frame (d : Dom) (node m : Nat) :
    (getN (detatchNode d node) m).isDocument = (getN d m).isDocument := by
  unfold detatchNode
  dsimp only
  repeat' split
  all_goals simp [getN_updN, apply_ite NodeData.isDocument]

/-! Update/projection matrix: reading a field after an update that sets a
(possibly different) field. Off-diagonal entries are unconditional frames;
diagonal entries expose the conditional. All are stated for an update
function of the shape used by the primitives. -/

theorem updP_parent (d : Dom) (i m : Nat) (g : NodeData → Option Nat) :
    (getN (updN d i (fun nd => { nd with parentNode := g nd })) m).parentNode
      = if m = i then g (getN d m) else (getN d m).parentNode := by
  by_cases h : m = i <;> simp [getN_updN, h]

@[simp] theorem updP_prev (d : Dom) (i m : Nat) (g : NodeData → Option Nat) :
    (getN (updN d i (fun nd => { nd with parentNode := g nd })) m).prevSibling
      = (getN d m).prevSibling := by
  by_cases h : m = i <;> simp [getN_updN, h]

@[simp] theorem updP_next (d : Dom) (i m : Nat) (g : NodeData → Option Nat) :
    (getN (updN d i (fun nd => { nd with parentNode := g nd })) m).nextSibling
      = (getN d m).nextSibling := by
  by_cases h : m = i <;> simp [getN_updN, h]

@[simp] theorem updP_child (d : Dom) (i m : Nat) (g : NodeData → Option Nat) :
    (getN (updN d i (fun nd => { nd with parentNode := g nd })) m).childNodes
      = (getN d m).childNodes := by
  by_cases h : m = i <;> simp [getN_updN, h]

@[simp] theorem updP_doc (d : Dom) (i m : Nat) (g : NodeData → Option Nat) :
    (getN (updN d i (fun nd => { nd with parentNode := g nd })) m).isDocument
      = (getN d m).isDocument := by
  by_cases h : m = i <;> simp [getN_updN, h]

@[simp] theorem updV_parent (d : Dom) (i m : Nat) (g : NodeData → Option Nat) :
    (getN (updN d i (fun nd => { nd with prevSibling := g nd })) m).parentNode
      = (getN d m).parentNode := by
  by_cases h : m = i <;> simp [getN_updN, h]

theorem updV_prev (d : Dom) (i m : Nat) (g : NodeData → Option Nat) :
    (getN (updN d i (fun nd => { nd with prevSibling := g nd })) m).prevSibling
      = if m = i then g (getN d m) else (getN d m).prevSibling := by
  by_cases h : m = i <;> simp [getN_updN, h]

@[simp] theorem updV_next (d : Dom) (i m : Nat) (g : NodeData → Option Nat) :
    (getN (updN d i (fun nd => { nd with prevSibling := g nd })) m).nextSibling
      = (getN d m).nextSibling := by
  by_cases h : m = i <;> simp [getN_updN, h]

@[simp] theorem updV_child (d : Dom) (i m : Nat) (g : NodeData → Option Nat) :
    (getN (updN d i (fun nd => { nd with prevSibling := g nd })) m).childNodes
      = (getN d m).childNodes := by
  by_cases h : m = i <;> simp [getN_updN, h]

@[simp] theorem updV_doc (d : Dom) (i m : Nat) (g : NodeData → Option Nat) :
    (getN (updN d i (fun nd => { nd with prevSibling := g nd })) m).isDocument
      = (getN d m).isDocument := by
  by_cases h : m = i <;> simp [getN_updN, h]

@[simp] theorem updX_parent (d : Dom) (i m : Nat) (g : NodeData → Option Nat) :
    (getN (updN d i (fun nd => { nd with nextSibling := g nd })) m).parentNode
      = (getN d m).parentNode := by
  by_cases h : m = i <;> simp [getN_updN, h]

@[simp] theorem updX_prev (d : Dom) (i m : Nat) (g : NodeData → Option Nat) :
    (getN (updN d i (fun nd => { nd with nextSibling := g nd })) m).prevSibling
      = (getN d m).prevSibling := by
  by_cases h : m = i <;> simp [getN_updN, h]

theorem updX_next (d : Dom) (i m : Nat) (g : NodeData → Option Nat) :
    (getN (updN d i (fun nd => { nd with nextSibling := g nd })) m).nextSibling
      = if m = i then g (getN d m) else (getN d m).nextSibling := by
  by_cases h : m = i <;> simp [getN_updN, h]

@[simp] theorem updX_child (d : Dom) (i m : Nat) (g : NodeData → Option Nat) :
    (getN (updN d i (fun nd => { nd with nextSibling := g nd })) m).childNodes
      = (getN d m).childNodes := by
  by_cases h : m = i <;> simp [getN_updN, h]

@[simp] theorem updX_doc (d : Dom) (i m : Nat) (g : NodeData → Option Nat) :
    (getN (updN d i (fun nd => { nd with nextSibling := g nd })) m).isDocument
      = (getN d m).isDocument := by
  by_cases h : m = i <;> simp [getN_updN, h]

@[simp] theorem updC_parent (d : Dom) (i m : Nat) (g : NodeData → List Nat) :
    (getN (updN d i (fun nd => { nd with childNodes := g nd })) m).parentNode
      = (getN d m).parentNode := by
  by_cases h : m = i <;> simp [getN_updN, h]

@[simp] theorem updC_prev (d : Dom) (i m : Nat) (g : NodeData → List Nat) :
    (getN (updN d i (fun nd => { nd with childNodes := g nd })) m).prevSibling
      = (getN d m).prevSibling := by
  by_cases h : m = i <;> simp [getN_updN, h]

@[simp] theorem updC_next (d : Dom) (i m : Nat) (g : NodeData → List Nat) :
    (getN (updN d i (fun nd => { nd with childNodes := g nd })) m).nextSibling
      = (getN d m).nextSibling := by
  by_cases h : m = i <;> simp [getN_updN, h]

theorem updC_child (d : Dom) (i m : Nat) (g : NodeData → List Nat) :
    (getN (updN d i (fun nd => { nd with childNodes := g nd })) m).childNodes
      = if m = i then g (getN d m) else (getN d m).childNodes := by
  by_cases h : m = i <;> simp [getN_updN, h]

@[simp] theorem updC_doc (d : Dom) (i m : Nat) (g : NodeData → List Nat) :
    (getN (updN d i (fun nd => { nd with childNodes := g nd })) m).isDocument
      = (getN d m).isDocument := by
  by_cases h : m = i <;> simp [getN_updN, h]

theorem detatch_childNodes (d : Dom) (node m : Nat) :
    (getN (detatchNode d node) m).childNodes =
      if (getN d node).parentNode = some m then
        (getN d m).childNodes.filter (fun c => c != node)
      else (getN d m).childNodes := by
  unfold detatchNode
  dsimp only
  rcases hpar : (getN d node).parentNode with _ | p
  · dsimp only
    rw [if_neg (by simp)]
    repeat' split
    all_goals simp
  · dsimp only
    by_cases hmp : p = m
    · subst hmp
      rw [if_pos rfl]
      repeat' split
      all_goals simp [updC_child]
    · have hmp2 : m ≠ p := fun h => hmp h.symm
      rw [if_neg (by simp [hmp])]
      repeat' split
      all_goals simp [updC_child, hmp2]

theorem detatch_prevSibling_frame (d : Dom) (node m : Nat) (hm : m ≠ node)
    (hns : (getN d node).nextSibling ≠ some m) :
    (getN (detatchNode d node) m).prevSibling = (getN d m).prevSibling := by
  unfold detatchNode
  dsimp only
  rcases hpar : (getN d node).parentNode with _ | p
  all_goals try dsimp only
  all_goals try simp only [updC_prev, updC_next]
  all_goals rcases hprev : (getN d node).prevSibling with _ | ps
  all_goals try dsimp only
  all_goals try simp only [updX_next, updC_next, ite_self]
  all_goals rcases hnext : (getN d node).nextSibling with _ | ns
  all_goals try dsimp only
  all_goals try (have hnsm : m ≠ ns := fun h => hns (hnext ▸ (h ▸ rfl)))
  all_goals try simp [updV_prev, hm, hnsm]
  all_goals try simp [updV_prev, hm]
  all_goals try assumption

theorem detatch_nextSibling_frame (d : Dom) (node m : Nat) (hm : m ≠ node)
    (hps : (getN d node).prevSibling ≠ some m) :
    (getN (detatchNode d node) m).nextSibling = (getN d m).nextSibling := by
  unfold detatchNode
  dsimp only
  rcases hpar : (getN d node).parentNode with _ | p
  all_goals try dsimp only
  all_goals try simp only [updC_prev, updC_next]
  all_goals rcases hprev : (getN d node).prevSibling with _ | ps
  all_goals try dsimp only
  all_goals try (have hpsm : m ≠ ps := fun h => hps (hprev ▸ (h ▸ rfl)))
  all_goals try simp only [updX_next, updC_next, ite_self]
  all_goals rcases hnext : (getN d node).nextSibling with _ | ns
  all_goals try dsimp only
  all_goals try simp [updX_next, hm, hpsm]
  all_goals try simp [updX_next, hm]
  all_goals try assumption

theorem detatch_bridge_next (d : Dom) (node ps : Nat)
    (hps : (getN d node).prevSibling = some ps) (hpsn : ps ≠ node) :
    (getN (detatchNode d node) ps).nextSibling = (getN d node).nextSibling := by
  unfold detatchNode
  dsimp only
  rcases hpar : (getN d node).parentNode with _ | p
  all_goals try dsimp only
  all_goals try simp only [updC_prev, updC_next, hps]
  all_goals try dsimp only
  all_goals try simp only [updX_next, updC_next, ite_self]
  all_goals rcases hnext : (getN d node).nextSibling with _ | ns
  all_goals try dsimp only
  all_goals try simp [updX_next, hpsn]
  all_goals try assumption

theorem detatch_bridge_prev (d : Dom) (node ns : Nat)
    (hns : (getN d node).nextSibling = some ns) (hnsn : ns ≠ node) :
    (getN (detatchNode d node) ns).prevSibling = (getN d node).prevSibling := by
  unfold detatchNode
  dsimp only
  rcases hpar : (getN d node).parentNode with _ | p
  all_goals try dsimp only
  all_goals try simp only [updC_prev, updC_next]
  all_goals rcases hprev : (getN d node).prevSibling with _ | ps
  all_goals try dsimp only
  all_goals try simp only [updX_next, updC_next, ite_self, hns]
  all_goals try dsimp only
  all_goals try simp [updV_prev, hnsn]
  all_goals try assumption

/-- Sample heap used by witnesses: node 0 is a detached root with
children 1 and 2, which are properly linked siblings. -/
def wDom : Dom :=
  { size := 3
    nodes := fun i =>
      if i = 0 then
        { parentNode := none, prevSibling := none, nextSibling := none,
          childNodes := [1, 2], isDocument := false }
      else if i = 1 then
        { parentNode := some 0, prevSibling := none, nextSibling := some 2,
          childNodes := [], isDocument := false }
      else if i = 2 then
        { parentNode := some 0, prevSibling := some 1, nextSibling := none,
          childNodes := [], isDocument := false }
      else
        { parentNode := none, prevSibling := none, nextSibling := none,
          childNodes := [], isDocument := false } }

/-- C5: detatchNode is idempotent, and detatching a node with no parent
and no siblings changes nothing. -/
theorem detatchNode_idempotent :
    (∀ (d : Dom) (node : Nat),
      detatchNode (detatchNode d node) node = detatchNode d node) ∧
    (∀ (d : Dom) (node : Nat), (getN d node).parentNode = none →
      (getN d node).prevSibling = none → (getN d node).nextSibling = none →
      detatchNode d node = d) := by
  constructor
  · intro d node
    exact detatchNode_of_detached _ _ (detatch_self_links d node).1
      (detatch_self_links d node).2.1 (detatch_self_links d node).2.2
  · intro d node h1 h2 h3
    exact detatchNode_of_detached d node h1 h2 h3

theorem detatchNode_idempotent_witness :
    (getN wDom 0).parentNode = none ∧ (getN wDom 0).prevSibling = none ∧
    (getN wDom 0).nextSibling = none ∧ detatchNode wDom 0 = wDom :=
  ⟨rfl, rfl, rfl, detatchNode_idempotent.2 wDom 0 rfl rfl rfl⟩

/-- C6: appendSibling and prependSibling raise exactly when the anchor
node is a DocumentNode; for every non-document anchor they return
normally. -/
theorem siblingInsert_error_iff :
    (∀ (d : Dom) (node after : Nat),
      isErr (appendSibling d node after) = (getN d after).isDocument) ∧
    (∀ (d : Dom) (node before : Nat),
      isErr (prependSibling d node before) = (getN d before).isDocument) := by
  constructor
  · intro d n a
    unfold appendSibling
    by_cases h : (getN d a).isDocument = true <;> simp_all [isErr]
  · intro d n a
    unfold prependSibling
    by_cases h : (getN d a).isDocument = true <;> simp_all [isErr]

/-- C4: after appendChild(A, B), B's parent is A, B is the last of A's
children, and if B previously had a different parent then B is no longer
in that parent's child list. -/
theorem appendChild_spec (d : Dom) (parent child : Nat) :
    (getN (appendChild d parent child) child).parentNode = some parent ∧
    (getN (appendChild d parent child) parent).childNodes.getLast? = some child ∧
    (∀ q, (getN d child).parentNode = some q → q ≠ parent →
      child ∉ (getN (appendChild d parent child) q).childNodes) := by
  refine ⟨?_, ?_, ?_⟩
  · unfold appendChild
    dsimp only
    simp [updP_parent]
  · unfold appendChild
    dsimp only
    simp only [updP_child]
    rw [updC_child, if_pos rfl]
    simp
  · intro q hq hqp
    unfold appendChild
    dsimp only
    simp only [updP_child]
    rw [updC_child, if_neg hqp]
    repeat' split
    all_goals try simp only [updV_child, updX_child]
    all_goals rw [detatch_childNodes, hq, if_pos rfl]
    all_goals simp

theorem appendChild_spec_witness :
    (getN wDom 2).parentNode = some 0 ∧ ((0 : Nat) ≠ 1) ∧
    (getN (appendChild wDom 1 2) 2).parentNode = some 1 ∧
    (getN (appendChild wDom 1 2) 1).childNodes.getLast? = some 2 ∧
    2 ∉ (getN (appendChild wDom 1 2) 0).childNodes :=
  ⟨rfl, by decide, (appendChild_spec wDom 1 2).1, (appendChild_spec wDom 1 2).2.1,
   (appendChild_spec wDom 1 2).2.2 0 rfl (by decide)⟩

/-! The tree invariant of the specification: every node is in at most one
parent's child list, child lists are duplicate-free, sibling links agree
with the order of the owning child list, and a parentless node carries no
sibling links. -/

/-- Head of a list as the follow-up link, falling back to a terminator. -/
def headOr (term : Option Nat) : List Nat → Option Nat
  | [] => term
  | x :: _ => some x

/-- Sibling links along a list: each entry's prevSibling points to its
predecessor (prev for the head), each entry's nextSibling points to its
successor (term for the last). -/
def seg (d : Dom) : Option Nat → List Nat → Option Nat → Prop
  | _, [], _ => True
  | prev, c :: rest, term =>
    (getN d c).prevSibling = prev ∧ (getN d c).nextSibling = headOr term rest ∧
      seg d (some c) rest term

instance segDecidable (d : Dom) :
    (prev : Option Nat) → (l : List Nat) → (term : Option Nat) →
    Decidable (seg d prev l term)
  | _, [], _ => isTrue trivial
  | prev, c :: rest, term =>
    have : Decidable (seg d (some c) rest term) := segDecidable d (some c) rest term
    decidable_of_iff
      ((getN d c).prevSibling = prev ∧ (getN d c).nextSibling = headOr term rest ∧
        seg d (some c) rest term) (by simp only [seg])

/-- parentNode is backed by membership in the parent's child list. -/
def parentOk (d : Dom) (i : Nat) : Prop :=
  match (getN d i).parentNode with
  | none => True
  | some p => p < d.size ∧ i ∈ (getN d p).childNodes

instance parentOkDecidable (d : Dom) (i : Nat) : Decidable (parentOk d i) :=
  match h : (getN d i).parentNode with
  | none => isTrue (by unfold parentOk; rw [h]; trivial)
  | some p =>
    decidable_of_iff (p < d.size ∧ i ∈ (getN d p).childNodes)
      (by unfold parentOk; rw [h])

/-- Every child is in range and points back to this parent. -/
def childOk (d : Dom) (i : Nat) : Prop :=
  ∀ c ∈ (getN d i).childNodes, c < d.size ∧ (getN d c).parentNode = some i

/-- A parentless node has no sibling links. -/
def detachedOk (d : Dom) (i : Nat) : Prop :=
  (getN d i).parentNode = none →
    (getN d i).prevSibling = none ∧ (getN d i).nextSibling = none

instance childOkDecidable (d : Dom) (i : Nat) : Decidable (childOk d i) :=
  decidable_of_iff
    (∀ c ∈ (getN d i).childNodes, c < d.size ∧ (getN d c).parentNode = some i)
    Iff.rfl

instance detachedOkDecidable (d : Dom) (i : Nat) : Decidable (detachedOk d i) :=
  decidable_of_iff
    ((getN d i).parentNode = none →
      (getN d i).prevSibling = none ∧ (getN d i).nextSibling = none)
    Iff.rfl

/-- The tree invariant, for every node identity below the heap size. -/
def TreeInv (d : Dom) : Prop :=
  ∀ i, i < d.size →
    parentOk d i ∧ childOk d i ∧ (getN d i).childNodes.Nodup ∧
      seg d none (getN d i).childNodes none ∧ detachedOk d i

instance invDecidable (d : Dom) : Decidable (TreeInv d) := by
  unfold TreeInv
  infer_instance

/-- Two detached sibling-free non-document nodes: the smallest state on
which appendSibling violates the invariant. -/
def cDom : Dom :=
  { size := 2
    nodes := fun _ =>
      { parentNode := none, prevSibling := none, nextSibling := none,
        childNodes := [], isDocument := false } }

theorem appendSibling_breaks_invariant :
    TreeInv cDom ∧
    appendSibling cDom 1 0 = Except.ok (appendSiblingCore cDom 1 0) ∧
    ¬ TreeInv (appendSiblingCore cDom 1 0) :=
  ⟨by decide, rfl, by decide⟩

/-! Toolkit for sibling chains. -/

/-- Last element of a list as the back link, falling back to prev. -/
def lastOr (prev : Option Nat) : List Nat → Option Nat
  | [] => prev
  | x :: xs => lastOr (some x) xs

theorem headOr_append (term : Option Nat) (l₁ l₂ : List Nat) :
    headOr term (l₁ ++ l₂) = headOr (headOr term l₂) l₁ := by
  cases l₁ <;> simp [headOr]

theorem lastOr_append (prev : Option Nat) (l₁ l₂ : List Nat) :
    lastOr prev (l₁ ++ l₂) = lastOr (lastOr prev l₁) l₂ := by
  induction l₁ generalizing prev with
  | nil => simp [lastOr]
  | cons x xs ih => simp [lastOr, ih]

theorem seg_append_iff (d : Dom) (prev term : Option Nat) (l₁ l₂ : List Nat) :
    seg d prev (l₁ ++ l₂) term ↔
      seg d prev l₁ (headOr term l₂) ∧ seg d (lastOr prev l₁) l₂ term := by
  induction l₁ generalizing prev with
  | nil => simp [seg, lastOr]
  | cons x xs ih =>
    rw [List.cons_append, seg, seg, ih, headOr_append]
    rw [show lastOr prev (x :: xs) = lastOr (some x) xs from rfl]
    tauto

theorem seg_congr (d d' : Dom) (term : Option Nat) (l : List Nat)
    (hf : ∀ x ∈ l, (getN d' x).prevSibling = (getN d x).prevSibling ∧
      (getN d' x).nextSibling = (getN d x).nextSibling) :
    ∀ prev, seg d prev l term → seg d' prev l term := by
  induction l with
  | nil => intro prev _; trivial
  | cons x xs ih =>
    intro prev h
    rw [seg] at h ⊢
    refine ⟨?_, ?_, ?_⟩
    · rw [(hf x (by simp)).1]; exact h.1
    · rw [(hf x (by simp)).2]; exact h.2.1
    · exact ih (fun y hy => hf y (by simp [hy])) (some x) h.2.2

theorem seg_retarget_last (d d' : Dom) (t t' : Option Nat) (ls : Nat) :
    ∀ (l : List Nat) (prev : Option Nat),
    seg d prev l t →
    l.Nodup →
    l.getLast? = some ls →
    (∀ x ∈ l, (getN d' x).prevSibling = (getN d x).prevSibling) →
    (∀ x ∈ l, x ≠ ls → (getN d' x).nextSibling = (getN d x).nextSibling) →
    (getN d' ls).nextSibling = t' →
    seg d' prev l t' := by
  intro l
  induction l with
  | nil => intro prev _ _ h; simp at h
  | cons x xs ih =>
    intro prev hseg hnd hlast hprev hnext hre
    rw [seg] at hseg ⊢
    cases xs with
    | nil =>
      have hx : x = ls := by simpa using hlast
      subst hx
      exact ⟨by rw [hprev x (by simp)]; exact hseg.1, by simpa [headOr] using hre, trivial⟩
    | cons y ys =>
      have hls_mem : ls ∈ y :: ys := by
        rw [List.getLast?_cons_cons] at hlast
        exact List.mem_of_mem_getLast? hlast
      have hxls : x ≠ ls := by
        intro hcontra
        subst hcontra
        exact (List.nodup_cons.mp hnd).1 hls_mem
      refine ⟨?_, ?_, ?_⟩
      · rw [hprev x (by simp)]; exact hseg.1
      · rw [hnext x (by simp) hxls]; exact hseg.2.1
      · exact ih (some x) hseg.2.2 (List.nodup_cons.mp hnd).2
          (by rw [List.getLast?_cons_cons] at hlast; exact hlast)
          (fun z hz => hprev z (by simp [hz]))
          (fun z hz hzls => hnext z (by simp [hz]) hzls) hre

theorem seg_retarget_head (d d' : Dom) (term : Option Nat) (q q' : Option Nat)
    (hd : Nat) (l : List Nat)
    (hseg : seg d q l term)
    (hnd : l.Nodup)
    (hhd : l.head? = some hd)
    (hnext : ∀ x ∈ l, (getN d' x).nextSibling = (getN d x).nextSibling)
    (hprev : ∀ x ∈ l, x ≠ hd → (getN d' x).prevSibling = (getN d x).prevSibling)
    (hre : (getN d' hd).prevSibling = q') :
    seg d' q' l term := by
  cases l with
  | nil => trivial
  | cons x xs =>
    have hx : x = hd := by simpa using hhd
    subst hx
    rw [seg] at hseg ⊢
    refine ⟨hre, by rw [hnext x (by simp)]; exact hseg.2.1, ?_⟩
    refine seg_congr d d' term xs ?_ (some x) hseg.2.2
    intro y hy
    have hyx : y ≠ x := fun hcontra =>
      (List.nodup_cons.mp hnd).1 (hcontra ▸ hy)
    exact ⟨hprev y (by simp [hy]) hyx, hnext y (by simp [hy])⟩

theorem lastOr_eq_some : ∀ (l : List Nat) (prev : Option Nat) (a : Nat),
    l.getLast? = some a → lastOr prev l = some a
  | [], _, _, h => by simp at h
  | [x], prev, a, h => by
    simp at h
    simp [lastOr, h]
  | x :: y :: ys, prev, a, h => by
    rw [List.getLast?_cons_cons] at h
    have := lastOr_eq_some (y :: ys) (some x) a h
    simpa [lastOr] using this

theorem filter_ne_split (l₁ l₂ : List Nat) (n : Nat) (h₁ : n ∉ l₁) (h₂ : n ∉ l₂) :
    (l₁ ++ n :: l₂).filter (fun c => c != n) = l₁ ++ l₂ := by
  have e1 : l₁.filter (fun c => c != n) = l₁ :=
    List.filter_eq_self.mpr (fun a ha => by
      rw [bne_iff_ne]
      exact fun hc => h₁ (hc ▸ ha))
  have e2 : l₂.filter (fun c => c != n) = l₂ :=
    List.filter_eq_self.mpr (fun a ha => by
      rw [bne_iff_ne]
      exact fun hc => h₂ (hc ▸ ha))
  rw [List.filter_append, List.filter_cons]
  simp [e1, e2]

theorem inv_detatch (d : Dom) (n : Nat) (hInv : TreeInv d) (hn : n < d.size) :
    TreeInv (detatchNode d n) := by
  rcases hp : (getN d n).parentNode with _ | p
  · have hdet := (hInv n hn).2.2.2.2 hp
    rw [detatchNode_of_detached d n hp hdet.1 hdet.2]
    exact hInv
  · have hpOk := (hInv n hn).1
    unfold parentOk at hpOk
    rw [hp] at hpOk
    obtain ⟨hpsize, hmem⟩ := hpOk
    obtain ⟨l₁, l₂, hl⟩ := List.append_of_mem hmem
    have hnd0 : (getN d p).childNodes.Nodup := (hInv p hpsize).2.2.1
    have hseg0 : seg d none (getN d p).childNodes none := (hInv p hpsize).2.2.2.1
    have hchOk : childOk d p := (hInv p hpsize).2.1
    have hnd : (l₁ ++ n :: l₂).Nodup := hl ▸ hnd0
    have hsegf : seg d none (l₁ ++ n :: l₂) none := hl ▸ hseg0
    obtain ⟨ndl₁, ndcons, hdisj⟩ := List.nodup_append.mp hnd
    have hnl₂ : n ∉ l₂ := (List.nodup_cons.mp ndcons).1
    have ndl₂ : l₂.Nodup := (List.nodup_cons.mp ndcons).2
    have hnl₁ : n ∉ l₁ := fun hc => hdisj hc (by simp)
    rw [seg_append_iff] at hsegf
    obtain ⟨hsegl₁, hsegr⟩ := hsegf
    rw [seg] at hsegr
    obtain ⟨hprevn, hnextn, hsegl₂⟩ := hsegr
    rw [show headOr none (n :: l₂) = some n from rfl] at hsegl₁
    have hxn : ∀ x ∈ l₁ ++ l₂, x ≠ n := by
      intro x hx
      rcases List.mem_append.mp hx with h | h
      · exact fun hc => hdisj h (by simp [hc])
      · exact fun hc => hnl₂ (hc ▸ h)
    have hxl : ∀ x ∈ l₁ ++ l₂, x ∈ (getN d p).childNodes := by
      intro x hx
      rw [hl]
      rcases List.mem_append.mp hx with h | h
      · exact List.mem_append.mpr (Or.inl h)
      · exact List.mem_append.mpr (Or.inr (List.mem_cons_of_mem _ h))
    have Fc : ∀ m, (getN (detatchNode d n) m).childNodes =
        if m = p then l₁ ++ l₂ else (getN d m).childNodes := by
      intro m
      rw [detatch_childNodes, hp]
      by_cases h : m = p
      · subst h
        rw [if_pos rfl, if_pos rfl, hl, filter_ne_split l₁ l₂ n hnl₁ hnl₂]
      · rw [if_neg (fun hc : some p = some m => h (Option.some_inj.mp hc).symm), if_neg h]
    have F3 : ∀ m, m ≠ n → (getN (detatchNode d n) m).parentNode = (getN d m).parentNode :=
      fun m hm => detatch_parentNode_frame d n m hm
    have Fself := detatch_self_links d n
    have hnextn_ne : ∀ x, (getN d x).parentNode ≠ some p → (getN d n).nextSibling ≠ some x := by
      intro x hpx hc
      rw [hnextn] at hc
      cases l₂ with
      | nil => simp [headOr] at hc
      | cons ns l₂' =>
        have hns : ns = x := by simpa [headOr] using hc
        subst hns
        exact hpx (hchOk ns (hxl ns (by simp))).2
    have hprevn_ne : ∀ x, (getN d x).parentNode ≠ some p → (getN d n).prevSibling ≠ some x := by
      intro x hpx hc
      rw [hprevn] at hc
      cases hgl : l₁.getLast? with
      | none =>
        rw [List.getLast?_eq_none_iff.mp hgl] at hc
        simp [lastOr] at hc
      | some ls =>
        rw [lastOr_eq_some l₁ none ls hgl] at hc
        have hlx : ls = x := Option.some_inj.mp hc
        subst hlx
        exact hpx (hchOk ls (hxl ls (List.mem_append.mpr (Or.inl (List.mem_of_mem_getLast? hgl))))).2
    have hnextn_ne₁ : ∀ x ∈ l₁, (getN d n).nextSibling ≠ some x := by
      intro x hx hc
      rw [hnextn] at hc
      cases l₂ with
      | nil => simp [headOr] at hc
      | cons ns l₂' =>
        have hns : ns = x := by simpa [headOr] using hc
        exact hdisj hx (by simp [← hns])
    have hprevn_ne₂ : ∀ x ∈ l₂, (getN d n).prevSibling ≠ some x := by
      intro x hx hc
      rw [hprevn] at hc
      cases hgl : l₁.getLast? with
      | none =>
        rw [List.getLast?_eq_none_iff.mp hgl] at hc
        simp [lastOr] at hc
      | some ls =>
        rw [lastOr_eq_some l₁ none ls hgl] at hc
        have hlx : ls = x := Option.some_inj.mp hc
        exact hdisj (hlx ▸ List.mem_of_mem_getLast? hgl) (by simp [hx])
    have hndnew : (l₁ ++ l₂).Nodup := by
      have hsub : List.Sublist (l₁ ++ l₂) (l₁ ++ n :: l₂) :=
        List.Sublist.append_left (List.sublist_cons_self n l₂) l₁
      exact hnd.sublist hsub
    have hsegnew : seg (detatchNode d n) none (l₁ ++ l₂) none := by
      rw [seg_append_iff]
      constructor
      · cases hgl : l₁.getLast? with
        | none =>
          rw [List.getLast?_eq_none_iff.mp hgl]
          trivial
        | some ls =>
          have hlsl₁ : ls ∈ l₁ := List.mem_of_mem_getLast? hgl
          have hlsn : ls ≠ n := hxn ls (List.mem_append.mpr (Or.inl hlsl₁))
          apply seg_retarget_last d (detatchNode d n) (some n) (headOr none l₂) ls l₁ none
            hsegl₁ ndl₁ hgl
          · intro x hx
            exact detatch_prevSibling_frame d n x (hxn x (List.mem_append.mpr (Or.inl hx)))
              (hnextn_ne₁ x hx)
          · intro x hx hxls
            apply detatch_nextSibling_frame d n x (hxn x (List.mem_append.mpr (Or.inl hx)))
            rw [hprevn, lastOr_eq_some l₁ none ls hgl]
            exact fun hc => hxls (Option.some_inj.mp hc).symm
          · rw [detatch_bridge_next d n ls (by rw [hprevn, lastOr_eq_some l₁ none ls hgl]) hlsn]
            exact hnextn
      · cases hl₂ : l₂ with
        | nil => trivial
        | cons ns l₂' =>
          have hnsl₂ : ns ∈ l₂ := by rw [hl₂]; simp
          have hnsn : ns ≠ n := hxn ns (List.mem_append.mpr (Or.inr hnsl₂))
          subst hl₂
          apply seg_retarget_head d (detatchNode d n) none (some n) (lastOr none l₁) ns
            (ns :: l₂') hsegl₂ ndl₂ rfl
          · intro x hx
            exact detatch_nextSibling_frame d n x
              (hxn x (List.mem_append.mpr (Or.inr hx))) (hprevn_ne₂ x hx)
          · intro x hx hxns
            apply detatch_prevSibling_frame d n x (hxn x (List.mem_append.mpr (Or.inr hx)))
            rw [hnextn]
            simp only [headOr]
            exact fun hc => hxns (Option.some_inj.mp hc).symm
          · rw [detatch_bridge_prev d n ns (by rw [hnextn]; rfl) hnsn]
            exact hprevn
    intro i hi
    rw [detatch_size] at hi
    by_cases hin : i = n
    · subst hin
      refine ⟨?_, ?_, ?_, ?_, ?_⟩
      · unfold parentOk
        rw [Fself.1]
        trivial
      · intro c hc
        rw [Fc] at hc
        by_cases hnp : i = p
        · rw [if_pos hnp] at hc
          refine ⟨by rw [detatch_size]; exact (hchOk c (hxl c hc)).1, ?_⟩
          rw [F3 c (hxn c hc), (hchOk c (hxl c hc)).2, hnp]
        · rw [if_neg hnp] at hc
          have hcOk := (hInv i hi).2.1 c hc
          have hcn : c ≠ i := by
            intro hc2
            subst hc2
            rw [hcOk.2] at hp
            have h2 := Option.some_inj.mp hp
            first
            | exact hnp h2
            | exact hnp h2.symm
          exact ⟨by rw [detatch_size]; exact hcOk.1, by rw [F3 c hcn]; exact hcOk.2⟩
      · rw [Fc]
        by_cases hnp : i = p
        · rw [if_pos hnp]; exact hndnew
        · rw [if_neg hnp]; exact (hInv i hi).2.2.1
      · rw [Fc]
        by_cases hnp : i = p
        · rw [if_pos hnp]; exact hsegnew
        · rw [if_neg hnp]
          apply seg_congr d (detatchNode d i) none (getN d i).childNodes ?_ none
            (hInv i hi).2.2.2.1
          intro x hx
          have hxOk := (hInv i hi).2.1 x hx
          have hxpar : (getN d x).parentNode ≠ some p := by
            rw [hxOk.2]
            intro hc
            have h2 := Option.some_inj.mp hc
            first
            | exact hnp h2
            | exact hnp h2.symm
          have hxne : x ≠ i := by
            intro hc
            subst hc
            exact hxpar hp
          exact ⟨detatch_prevSibling_frame d i x hxne (hnextn_ne x hxpar),
            detatch_nextSibling_frame d i x hxne (hprevn_ne x hxpar)⟩
      · intro _
        exact ⟨Fself.2.1, Fself.2.2⟩
    · refine ⟨?_, ?_, ?_, ?_, ?_⟩
      · unfold parentOk
        rw [F3 i hin]
        rcases hq : (getN d i).parentNode with _ | q
        · trivial
        · have hqOk := (hInv i hi).1
          unfold parentOk at hqOk
          rw [hq] at hqOk
          obtain ⟨hqsize, hqmem⟩ := hqOk
          refine ⟨by rw [detatch_size]; exact hqsize, ?_⟩
          rw [Fc]
          by_cases hqp : q = p
          · rw [if_pos hqp]
            subst hqp
            rw [hl] at hqmem
            rcases List.mem_append.mp hqmem with h | h
            · exact List.mem_append.mpr (Or.inl h)
            · rcases List.mem_cons.mp h with h2 | h2
              · exact absurd h2 hin
              · exact List.mem_append.mpr (Or.inr h2)
          · rw [if_neg hqp]
            exact hqmem
      · intro c hc
        rw [Fc] at hc
        by_cases hip : i = p
        · rw [if_pos hip] at hc
          refine ⟨by rw [detatch_size]; exact (hchOk c (hxl c hc)).1, ?_⟩
          rw [F3 c (hxn c hc), (hchOk c (hxl c hc)).2, hip]
        · rw [if_neg hip] at hc
          have hcOk := (hInv i hi).2.1 c hc
          have hcn : c ≠ n := by
            intro hc2
            subst hc2
            rw [hcOk.2] at hp
            have h2 := Option.some_inj.mp hp
            first
            | exact hip h2
            | exact hip h2.symm
          exact ⟨by rw [detatch_size]; exact hcOk.1, by rw [F3 c hcn]; exact hcOk.2⟩
      · rw [Fc]
        by_cases hip : i = p
        · rw [if_pos hip]; exact hndnew
        · rw [if_neg hip]; exact (hInv i hi).2.2.1
      · rw [Fc]
        by_cases hip : i = p
        · rw [if_pos hip]; exact hsegnew
        · rw [if_neg hip]
          apply seg_congr d (detatchNode d n) none (getN d i).childNodes ?_ none
            (hInv i hi).2.2.2.1
          intro x hx
          have hxOk := (hInv i hi).2.1 x hx
          have hxpar : (getN d x).parentNode ≠ some p := by
            rw [hxOk.2]
            intro hc
            have h2 := Option.some_inj.mp hc
            first
            | exact hip h2
            | exact hip h2.symm
          have hxne : x ≠ n := by
            intro hc
            subst hc
            exact hxpar hp
          exact ⟨detatch_prevSibling_frame d n x hxne (hnextn_ne x hxpar),
            detatch_nextSibling_frame d n x hxne (hprevn_ne x hxpar)⟩
      · intro h0
        rw [F3 i hin] at h0
        have hold := (hInv i hi).2.2.2.2 h0
        have hipar : (getN d i).parentNode ≠ some p := by rw [h0]; simp
        constructor
        · rw [detatch_prevSibling_frame d n i hin (hnextn_ne i hipar)]
          exact hold.1
        · rw [detatch_nextSibling_frame d n i hin (hprevn_ne i hipar)]
          exact hold.2

theorem exists_append_getLast : ∀ (l : List Nat) (a : Nat),
    l.getLast? = some a → ∃ l₀, l = l₀ ++ [a]
  | [], _, h => by simp at h
  | [x], a, h => by
    simp at h
    exact ⟨[], by simp [h]⟩
  | x :: y :: ys, a, h => by
    rw [List.getLast?_cons_cons] at h
    obtain ⟨l₀, hl₀⟩ := exists_append_getLast (y :: ys) a h
    exact ⟨x :: l₀, by simp [hl₀]⟩

/-- A parentless node is in nobody's child list. -/
theorem detached_not_mem (e : Dom) (hInv : TreeInv e) (c : Nat)
    (hc : (getN e c).parentNode = none) :
    ∀ m, m < e.size → c ∉ (getN e m).childNodes := by
  intro m hm hmem
  have h2 := ((hInv m hm).2.1 c hmem).2
  rw [hc] at h2
  exact Option.noConfusion h2

/-- Proof-device name for the statements of appendChild that follow the
initial detach; appendChild d p c is appendRest (detatchNode d c) p c by
definitional unfolding. -/
def appendRest (e : Dom) (parent child : Nat) : Dom :=
  let d2 := match getLastNode (getN e parent).childNodes with
    | some lc =>
        let dA := updN e lc (fun nd => { nd with nextSibling := some child })
        updN dA child (fun nd => { nd with prevSibling := some lc })
    | none => e
  let d3 := updN d2 parent (fun nd => { nd with childNodes := nd.childNodes ++ [child] })
  updN d3 child (fun nd => { nd with parentNode := some parent })

theorem appendChild_eq (d : Dom) (parent child : Nat) :
    appendChild d parent child = appendRest (detatchNode d child) parent child := rfl

theorem size_appendRest (e : Dom) (parent child : Nat) :
    (appendRest e parent child).size = e.size := by
  unfold appendRest
  dsimp only
  repeat' split
  all_goals rfl

theorem inv_appendRest (e : Dom) (parent child : Nat) (hInv : TreeInv e)
    (hpar : parent < e.size) (hch : child < e.size)
    (h0 : (getN e child).parentNode = none)
    (h1 : (getN e child).prevSibling = none)
    (h2 : (getN e child).nextSibling = none) :
    TreeInv (appendRest e parent child) := by
  have hnotmem := detached_not_mem e hInv child h0
  have hndcat : ((getN e parent).childNodes ++ [child]).Nodup := by
    rw [List.nodup_append]
    refine ⟨(hInv parent hpar).2.2.1, List.nodup_singleton child, ?_⟩
    intro a ha hb
    have : a = child := by simpa using hb
    subst this
    exact hnotmem parent hpar ha
  rcases hlc : getLastNode (getN e parent).childNodes with _ | lc
  · -- parent had no children
    have hpl : (getN e parent).childNodes = [] :=
      List.getLast?_eq_none_iff.mp (by simpa [getLastNode] using hlc)
    have Gc : ∀ m, (getN (appendRest e parent child) m).childNodes =
        if m = parent then (getN e parent).childNodes ++ [child]
        else (getN e m).childNodes := by
      intro m
      unfold appendRest
      dsimp only
      rw [hlc]
      dsimp only
      simp only [updP_child]
      rw [updC_child]
      by_cases hm : m = parent
      · subst hm; simp
      · simp [hm]
    have Gp : ∀ m, (getN (appendRest e parent child) m).parentNode =
        if m = child then some parent else (getN e m).parentNode := by
      intro m
      unfold appendRest
      dsimp only
      rw [hlc]
      dsimp only
      rw [updP_parent]
      simp only [updC_parent]
    have Gprev : ∀ m, (getN (appendRest e parent child) m).prevSibling =
        (getN e m).prevSibling := by
      intro m
      unfold appendRest
      dsimp only
      rw [hlc]
      dsimp only
      simp only [updP_prev, updC_prev]
    have Gnext : ∀ m, (getN (appendRest e parent child) m).nextSibling =
        (getN e m).nextSibling := by
      intro m
      unfold appendRest
      dsimp only
      rw [hlc]
      dsimp only
      simp only [updP_next, updC_next]
    intro i hi
    rw [size_appendRest] at hi
    refine ⟨?_, ?_, ?_, ?_, ?_⟩
    · unfold parentOk
      rw [Gp]
      by_cases hic : i = child
      · rw [if_pos hic]
        refine ⟨by rw [size_appendRest]; exact hpar, ?_⟩
        rw [Gc, if_pos rfl]
        exact List.mem_append.mpr (Or.inr (by simp [hic]))
      · rw [if_neg hic]
        rcases hq : (getN e i).parentNode with _ | q
        · trivial
        · have hqOk := (hInv i hi).1
          unfold parentOk at hqOk
          rw [hq] at hqOk
          refine ⟨by rw [size_appendRest]; exact hqOk.1, ?_⟩
          rw [Gc]
          by_cases hqp : q = parent
          · subst hqp
            rw [if_pos rfl]
            exact List.mem_append.mpr (Or.inl hqOk.2)
          · rw [if_neg hqp]
            exact hqOk.2
    · intro c hc
      rw [Gc] at hc
      by_cases hip : i = parent
      · rw [if_pos hip] at hc
        rcases List.mem_append.mp hc with hcl | hcr
        · have hcOk := (hInv parent hpar).2.1 c hcl
          have hcch : c ≠ child := fun hcc => hnotmem parent hpar (hcc ▸ hcl)
          refine ⟨by rw [size_appendRest]; exact hcOk.1, ?_⟩
          rw [Gp, if_neg hcch, hcOk.2, hip]
        · have : c = child := by simpa using hcr
          subst this
          refine ⟨by rw [size_appendRest]; exact hch, ?_⟩
          rw [Gp, if_pos rfl, hip]
      · rw [if_neg hip] at hc
        have hcOk := (hInv i hi).2.1 c hc
        have hcch : c ≠ child := by
          intro hcc
          subst hcc
          rw [hcOk.2] at h0
          exact Option.noConfusion h0
        refine ⟨by rw [size_appendRest]; exact hcOk.1, ?_⟩
        rw [Gp, if_neg hcch]
        exact hcOk.2
    · rw [Gc]
      by_cases hip : i = parent
      · rw [if_pos hip]; exact hndcat
      · rw [if_neg hip]; exact (hInv i hi).2.2.1
    · rw [Gc]
      by_cases hip : i = parent
      · rw [if_pos hip, hpl]
        rw [show ([] : List Nat) ++ [child] = [child] from rfl, seg]
        exact ⟨by rw [Gprev]; exact h1, by rw [Gnext]; exact h2, trivial⟩
      · rw [if_neg hip]
        apply seg_congr e (appendRest e parent child) none (getN e i).childNodes ?_ none
          (hInv i hi).2.2.2.1
        intro x _
        exact ⟨Gprev x, Gnext x⟩
    · intro hd
      rw [Gp] at hd
      by_cases hic : i = child
      · rw [if_pos hic] at hd
        exact Option.noConfusion hd
      · rw [if_neg hic] at hd
        have hold := (hInv i hi).2.2.2.2 hd
        exact ⟨by rw [Gprev]; exact hold.1, by rw [Gnext]; exact hold.2⟩
  · -- parent has a last child lc
    have hlcl : (getN e parent).childNodes.getLast? = some lc := by
      simpa [getLastNode] using hlc
    obtain ⟨l₀, hl₀⟩ := exists_append_getLast _ _ hlcl
    have hlcmem : lc ∈ (getN e parent).childNodes := List.mem_of_mem_getLast? hlcl
    have hlcOk := (hInv parent hpar).2.1 lc hlcmem
    have hlcchild : lc ≠ child := fun hc => hnotmem parent hpar (hc ▸ hlcmem)
    have Gc : ∀ m, (getN (appendRest e parent child) m).childNodes =
        if m = parent then (getN e parent).childNodes ++ [child]
        else (getN e m).childNodes := by
      intro m
      unfold appendRest
      dsimp only
      rw [hlc]
      dsimp only
      simp only [updP_child, updV_child, updX_child]
      rw [updC_child]
      by_cases hm : m = parent
      · subst hm; simp
      · simp [hm]
    have Gp : ∀ m, (getN (appendRest e parent child) m).parentNode =
        if m = child then some parent else (getN e m).parentNode := by
      intro m
      unfold appendRest
      dsimp only
      rw [hlc]
      dsimp only
      rw [updP_parent]
      simp only [updC_parent, updV_parent, updX_parent]
    have Gprev : ∀ m, m ≠ child →
        (getN (appendRest e parent child) m).prevSibling = (getN e m).prevSibling := by
      intro m hm
      unfold appendRest
      dsimp only
      rw [hlc]
      dsimp only
      simp only [updP_prev, updC_prev]
      rw [updV_prev, if_neg hm]
      simp only [updX_prev]
    have Gprevc : (getN (appendRest e parent child) child).prevSibling = some lc := by
      unfold appendRest
      dsimp only
      rw [hlc]
      dsimp only
      simp only [updP_prev, updC_prev]
      rw [updV_prev, if_pos rfl]
    have Gnext : ∀ m, m ≠ lc →
        (getN (appendRest e parent child) m).nextSibling = (getN e m).nextSibling := by
      intro m hm
      unfold appendRest
      dsimp only
      rw [hlc]
      dsimp only
      simp only [updP_next, updC_next, updV_next]
      rw [updX_next, if_neg hm]
    have Gnextlc : (getN (appendRest e parent child) lc).nextSibling = some child := by
      unfold appendRest
      dsimp only
      rw [hlc]
      dsimp only
      simp only [updP_next, updC_next, updV_next]
      rw [updX_next, if_pos rfl]
    intro i hi
    rw [size_appendRest] at hi
    refine ⟨?_, ?_, ?_, ?_, ?_⟩
    · unfold parentOk
      rw [Gp]
      by_cases hic : i = child
      · rw [if_pos hic]
        refine ⟨by rw [size_appendRest]; exact hpar, ?_⟩
        rw [Gc, if_pos rfl]
        exact List.mem_append.mpr (Or.inr (by simp [hic]))
      · rw [if_neg hic]
        rcases hq : (getN e i).parentNode with _ | q
        · trivial
        · have hqOk := (hInv i hi).1
          unfold parentOk at hqOk
          rw [hq] at hqOk
          refine ⟨by rw [size_appendRest]; exact hqOk.1, ?_⟩
          rw [Gc]
          by_cases hqp : q = parent
          · subst hqp
            rw [if_pos rfl]
            exact List.mem_append.mpr (Or.inl hqOk.2)
          · rw [if_neg hqp]
            exact hqOk.2
    · intro c hc
      rw [Gc] at hc
      by_cases hip : i = parent
      · rw [if_pos hip] at hc
        rcases List.mem_append.mp hc with hcl | hcr
        · have hcOk := (hInv parent hpar).2.1 c hcl
          have hcch : c ≠ child := fun hcc => hnotmem parent hpar (hcc ▸ hcl)
          refine ⟨by rw [size_appendRest]; exact hcOk.1, ?_⟩
          rw [Gp, if_neg hcch, hcOk.2, hip]
        · have : c = child := by simpa using hcr
          subst this
          refine ⟨by rw [size_appendRest]; exact hch, ?_⟩
          rw [Gp, if_pos rfl, hip]
      · rw [if_neg hip] at hc
        have hcOk := (hInv i hi).2.1 c hc
        have hcch : c ≠ child := by
          intro hcc
          subst hcc
          rw [hcOk.2] at h0
          exact Option.noConfusion h0
        refine ⟨by rw [size_appendRest]; exact hcOk.1, ?_⟩
        rw [Gp, if_neg hcch]
        exact hcOk.2
    · rw [Gc]
      by_cases hip : i = parent
      · rw [if_pos hip]; exact hndcat
      · rw [if_neg hip]; exact (hInv i hi).2.2.1
    · rw [Gc]
      by_cases hip : i = parent
      · rw [if_pos hip, hl₀]
        rw [show (l₀ ++ [lc]) ++ [child] = l₀ ++ [lc] ++ [child] from rfl]
        rw [seg_append_iff]
        constructor
        · apply seg_retarget_last e (appendRest e parent child) none (headOr none [child]) lc
            (l₀ ++ [lc]) none (by rw [← hl₀]; exact (hInv parent hpar).2.2.2.1)
            (by rw [← hl₀]; exact (hInv parent hpar).2.2.1)
            (List.getLast?_concat l₀)
          · intro x hx
            exact Gprev x (fun hc => hnotmem parent hpar (hc ▸ hl₀ ▸ hx))
          · intro x hx hxlc
            exact Gnext x hxlc
          · rw [Gnextlc]
            rfl
        · rw [lastOr_eq_some (l₀ ++ [lc]) none lc (List.getLast?_concat l₀)]
          rw [seg]
          refine ⟨Gprevc, ?_, trivial⟩
          rw [Gnext child (fun hc => hlcchild hc.symm), h2]
          rfl
      · rw [if_neg hip]
        apply seg_congr e (appendRest e parent child) none (getN e i).childNodes ?_ none
          (hInv i hi).2.2.2.1
        intro x hx
        have hxOk := (hInv i hi).2.1 x hx
        have hxch : x ≠ child := by
          intro hcc
          subst hcc
          rw [hxOk.2] at h0
          exact Option.noConfusion h0
        have hxlc : x ≠ lc := by
          intro hcc
          have h3 : (some i : Option Nat) = some parent := by
            rw [← hxOk.2, hcc, hlcOk.2]
          exact hip (Option.some_inj.mp h3)
        exact ⟨Gprev x hxch, Gnext x hxlc⟩
    · intro hd
      rw [Gp] at hd
      by_cases hic : i = child
      · rw [if_pos hic] at hd
        exact Option.noConfusion hd
      · rw [if_neg hic] at hd
        have hold := (hInv i hi).2.2.2.2 hd
        have hilc : i ≠ lc := by
          intro hcc
          subst hcc
          rw [hlcOk.2] at hd
          exact Option.noConfusion hd
        exact ⟨by rw [Gprev i hic]; exact hold.1, by rw [Gnext i hilc]; exact hold.2⟩

theorem inv_appendChild (d : Dom) (parent child : Nat) (hInv : TreeInv d)
    (hpar : parent < d.size) (hch : child < d.size) :
    TreeInv (appendChild d parent child) := by
  rw [appendChild_eq]
  have hd1 := inv_detatch d child hInv hch
  have hs := detatch_self_links d child
  exact inv_appendRest _ parent child hd1 (by rw [detatch_size]; exact hpar)
    (by rw [detatch_size]; exact hch) hs.1 hs.2.1 hs.2.2

/-- Proof-device name for the statements of prependChild after the
initial detach. -/
def prependRest (e : Dom) (parent child : Nat) : Dom :=
  let d2 := match getFirstNode (getN e parent).childNodes with
    | some fc =>
        let dA := updN e fc (fun nd => { nd with prevSibling := some child })
        updN dA child (fun nd => { nd with nextSibling := some fc })
    | none => e
  let d3 := updN d2 parent (fun nd => { nd with childNodes := child :: nd.childNodes })
  updN d3 child (fun nd => { nd with parentNode := some parent })

theorem prependChild_eq (d : Dom) (parent child : Nat) :
    prependChild d parent child = prependRest (detatchNode d child) parent child := rfl

theorem size_prependRest (e : Dom) (parent child : Nat) :
    (prependRest e parent child).size = e.size := by
  unfold prependRest
  dsimp only
  repeat' split
  all_goals rfl

theorem inv_prependRest (e : Dom) (parent child : Nat) (hInv : TreeInv e)
    (hpar : parent < e.size) (hch : child < e.size)
    (h0 : (getN e child).parentNode = none)
    (h1 : (getN e child).prevSibling = none)
    (h2 : (getN e child).nextSibling = none) :
    TreeInv (prependRest e parent child) := by
  have hnotmem := detached_not_mem e hInv child h0
  have hndcat : (child :: (getN e parent).childNodes).Nodup := by
    rw [List.nodup_cons]
    exact ⟨hnotmem parent hpar, (hInv parent hpar).2.2.1⟩
  rcases hfc : getFirstNode (getN e parent).childNodes with _ | fc
  · -- parent had no children
    have hpl : (getN e parent).childNodes = [] := by
      cases hcl : (getN e parent).childNodes with
      | nil => rfl
      | cons a l => rw [hcl] at hfc; simp [getFirstNode] at hfc
    have Gc : ∀ m, (getN (prependRest e parent child) m).childNodes =
        if m = parent then child :: (getN e parent).childNodes
        else (getN e m).childNodes := by
      intro m
      unfold prependRest
      dsimp only
      rw [hfc]
      dsimp only
      simp only [updP_child]
      rw [updC_child]
      by_cases hm : m = parent
      · subst hm; simp
      · simp [hm]
    have Gp : ∀ m, (getN (prependRest e parent child) m).parentNode =
        if m = child then some parent else (getN e m).parentNode := by
      intro m
      unfold prependRest
      dsimp only
      rw [hfc]
      dsimp only
      rw [updP_parent]
      simp only [updC_parent]
    have Gprev : ∀ m, (getN (prependRest e parent child) m).prevSibling =
        (getN e m).prevSibling := by
      intro m
      unfold prependRest
      dsimp only
      rw [hfc]
      dsimp only
      simp only [updP_prev, updC_prev]
    have Gnext : ∀ m, (getN (prependRest e parent child) m).nextSibling =
        (getN e m).nextSibling := by
      intro m
      unfold prependRest
      dsimp only
      rw [hfc]
      dsimp only
      simp only [updP_next, updC_next]
    intro i hi
    rw [size_prependRest] at hi
    refine ⟨?_, ?_, ?_, ?_, ?_⟩
    · unfold parentOk
      rw [Gp]
      by_cases hic : i = child
      · rw [if_pos hic]
        refine ⟨by rw [size_prependRest]; exact hpar, ?_⟩
        rw [Gc, if_pos rfl]
        simp [hic]
      · rw [if_neg hic]
        rcases hq : (getN e i).parentNode with _ | q
        · trivial
        · have hqOk := (hInv i hi).1
          unfold parentOk at hqOk
          rw [hq] at hqOk
          refine ⟨by rw [size_prependRest]; exact hqOk.1, ?_⟩
          rw [Gc]
          by_cases hqp : q = parent
          · subst hqp
            rw [if_pos rfl]
            exact List.mem_cons_of_mem _ hqOk.2
          · rw [if_neg hqp]
            exact hqOk.2
    · intro c hc
      rw [Gc] at hc
      by_cases hip : i = parent
      · rw [if_pos hip] at hc
        rcases List.mem_cons.mp hc with hcr | hcl
        · subst hcr
          refine ⟨by rw [size_prependRest]; exact hch, ?_⟩
          rw [Gp, if_pos rfl, hip]
        · have hcOk := (hInv parent hpar).2.1 c hcl
          have hcch : c ≠ child := fun hcc => hnotmem parent hpar (hcc ▸ hcl)
          refine ⟨by rw [size_prependRest]; exact hcOk.1, ?_⟩
          rw [Gp, if_neg hcch, hcOk.2, hip]
      · rw [if_neg hip] at hc
        have hcOk := (hInv i hi).2.1 c hc
        have hcch : c ≠ child := by
          intro hcc
          subst hcc
          rw [hcOk.2] at h0
          exact Option.noConfusion h0
        refine ⟨by rw [size_prependRest]; exact hcOk.1, ?_⟩
        rw [Gp, if_neg hcch]
        exact hcOk.2
    · rw [Gc]
      by_cases hip : i = parent
      · rw [if_pos hip]; exact hndcat
      · rw [if_neg hip]; exact (hInv i hi).2.2.1
    · rw [Gc]
      by_cases hip : i = parent
      · rw [if_pos hip, hpl, seg]
        exact ⟨by rw [Gprev]; exact h1, by rw [Gnext]; exact h2, trivial⟩
      · rw [if_neg hip]
        apply seg_congr e (prependRest e parent child) none (getN e i).childNodes ?_ none
          (hInv i hi).2.2.2.1
        intro x _
        exact ⟨Gprev x, Gnext x⟩
    · intro hd
      rw [Gp] at hd
      by_cases hic : i = child
      · rw [if_pos hic] at hd
        exact Option.noConfusion hd
      · rw [if_neg hic] at hd
        have hold := (hInv i hi).2.2.2.2 hd
        exact ⟨by rw [Gprev]; exact hold.1, by rw [Gnext]; exact hold.2⟩
  · -- parent has a first child fc
    have hfcl : (getN e parent).childNodes.head? = some fc := by
      simpa [getFirstNode] using hfc
    obtain ⟨l', hl'⟩ : ∃ l', (getN e parent).childNodes = fc :: l' := by
      cases hcl : (getN e parent).childNodes with
      | nil => rw [hcl] at hfcl; simp at hfcl
      | cons a l =>
        rw [hcl] at hfcl
        simp at hfcl
        exact ⟨l, by rw [hfcl]⟩
    have hfcmem : fc ∈ (getN e parent).childNodes := by rw [hl']; simp
    have hfcOk := (hInv parent hpar).2.1 fc hfcmem
    have hfcchild : fc ≠ child := fun hc => hnotmem parent hpar (hc ▸ hfcmem)
    have Gc : ∀ m, (getN (prependRest e parent child) m).childNodes =
        if m = parent then child :: (getN e parent).childNodes
        else (getN e m).childNodes := by
      intro m
      unfold prependRest
      dsimp only
      rw [hfc]
      dsimp only
      simp only [updP_child, updV_child, updX_child]
      rw [updC_child]
      by_cases hm : m = parent
      · subst hm; simp
      · simp [hm]
    have Gp : ∀ m, (getN (prependRest e parent child) m).parentNode =
        if m = child then some parent else (getN e m).parentNode := by
      intro m
      unfold prependRest
      dsimp only
      rw [hfc]
      dsimp only
      rw [updP_parent]
      simp only [updC_parent, updV_parent, updX_parent]
    have Gnext : ∀ m, m ≠ child →
        (getN (prependRest e parent child) m).nextSibling = (getN e m).nextSibling := by
      intro m hm
      unfold prependRest
      dsimp only
      rw [hfc]
      dsimp only
      simp only [updP_next, updC_next]
      rw [updX_next, if_neg hm]
      simp only [updV_next]
    have Gnextc : (getN (prependRest e parent child) child).nextSibling = some fc := by
      unfold prependRest
      dsimp only
      rw [hfc]
      dsimp only
      simp only [updP_next, updC_next]
      rw [updX_next, if_pos rfl]
    have Gprev : ∀ m, m ≠ fc →
        (getN (prependRest e parent child) m).prevSibling = (getN e m).prevSibling := by
      intro m hm
      unfold prependRest
      dsimp only
      rw [hfc]
      dsimp only
      simp only [updP_prev, updC_prev, updX_prev]
      rw [updV_prev, if_neg hm]
    have Gprevfc : (getN (prependRest e parent child) fc).prevSibling = some child := by
      unfold prependRest
      dsimp only
      rw [hfc]
      dsimp only
      simp only [updP_prev, updC_prev, updX_prev]
      rw [updV_prev, if_pos rfl]
    intro i hi
    rw [size_prependRest] at hi
    refine ⟨?_, ?_, ?_, ?_, ?_⟩
    · unfold parentOk
      rw [Gp]
      by_cases hic : i = child
      · rw [if_pos hic]
        refine ⟨by rw [size_prependRest]; exact hpar, ?_⟩
        rw [Gc, if_pos rfl]
        simp [hic]
      · rw [if_neg hic]
        rcases hq : (getN e i).parentNode with _ | q
        · trivial
        · have hqOk := (hInv i hi).1
          unfold parentOk at hqOk
          rw [hq] at hqOk
          refine ⟨by rw [size_prependRest]; exact hqOk.1, ?_⟩
          rw [Gc]
          by_cases hqp : q = parent
          · subst hqp
            rw [if_pos rfl]
            exact List.mem_cons_of_mem _ hqOk.2
          · rw [if_neg hqp]
            exact hqOk.2
    · intro c hc
      rw [Gc] at hc
      by_cases hip : i = parent
      · rw [if_pos hip] at hc
        rcases List.mem_cons.mp hc with hcr | hcl
        · subst hcr
          refine ⟨by rw [size_prependRest]; exact hch, ?_⟩
          rw [Gp, if_pos rfl, hip]
        · have hcOk := (hInv parent hpar).2.1 c hcl
          have hcch : c ≠ child := fun hcc => hnotmem parent hpar (hcc ▸ hcl)
          refine ⟨by rw [size_prependRest]; exact hcOk.1, ?_⟩
          rw [Gp, if_neg hcch, hcOk.2, hip]
      · rw [if_neg hip] at hc
        have hcOk := (hInv i hi).2.1 c hc
        have hcch : c ≠ child := by
          intro hcc
          subst hcc
          rw [hcOk.2] at h0
          exact Option.noConfusion h0
        refine ⟨by rw [size_prependRest]; exact hcOk.1, ?_⟩
        rw [Gp, if_neg hcch]
        exact hcOk.2
    · rw [Gc]
      by_cases hip : i = parent
      · rw [if_pos hip]; exact hndcat
      · rw [if_neg hip]; exact (hInv i hi).2.2.1
    · rw [Gc]
      by_cases hip : i = parent
      · rw [if_pos hip, hl', seg]
        refine ⟨?_, ?_, ?_⟩
        · rw [Gprev child (fun hc => hfcchild hc.symm)]
          exact h1
        · rw [Gnextc]
          rfl
        · apply seg_retarget_head e (prependRest e parent child) none none
            (some child) fc (fc :: l') ?_ ?_ rfl ?_ ?_ Gprevfc
          · rw [← hl']
            exact (hInv parent hpar).2.2.2.1
          · rw [← hl']
            exact (hInv parent hpar).2.2.1
          · intro x hx
            apply Gnext x
            intro hc
            subst hc
            exact hnotmem parent hpar (hl' ▸ hx)
          · intro x hx hxfc
            exact Gprev x hxfc
      · rw [if_neg hip]
        apply seg_congr e (prependRest e parent child) none (getN e i).childNodes ?_ none
          (hInv i hi).2.2.2.1
        intro x hx
        have hxOk := (hInv i hi).2.1 x hx
        have hxch : x ≠ child := by
          intro hcc
          subst hcc
          rw [hxOk.2] at h0
          exact Option.noConfusion h0
        have hxfc : x ≠ fc := by
          intro hcc
          have h3 : (some i : Option Nat) = some parent := by
            rw [← hxOk.2, hcc, hfcOk.2]
          exact hip (Option.some_inj.mp h3)
        exact ⟨Gprev x hxfc, Gnext x hxch⟩
    · intro hd
      rw [Gp] at hd
      by_cases hic : i = child
      · rw [if_pos hic] at hd
        exact Option.noConfusion hd
      · rw [if_neg hic] at hd
        have hold := (hInv i hi).2.2.2.2 hd
        have hifc : i ≠ fc := by
          intro hcc
          subst hcc
          rw [hfcOk.2] at hd
          exact Option.noConfusion hd
        exact ⟨by rw [Gprev i hifc]; exact hold.1, by rw [Gnext i hic]; exact hold.2⟩

theorem inv_prependChild (d : Dom) (parent child : Nat) (hInv : TreeInv d)
    (hpar : parent < d.size) (hch : child < d.size) :
    TreeInv (prependChild d parent child) := by
  rw [prependChild_eq]
  have hd1 := inv_detatch d child hInv hch
  have hs := detatch_self_links d child
  exact inv_prependRest _ parent child hd1 (by rw [detatch_size]; exact hpar)
    (by rw [detatch_size]; exact hch) hs.1 hs.2.1 hs.2.2

theorem jsIndexOf_append (l₁ l₂ : List Nat) (a : Nat) (h : a ∉ l₁) :
    jsIndexOf (l₁ ++ a :: l₂) a = (l₁.length : Int) := by
  induction l₁ with
  | nil => simp [jsIndexOf]
  | cons x xs ih =>
    have hxa : x ≠ a := fun hc => h (by simp [hc])
    have hih := ih (fun hc => h (by simp [hc]))
    rw [List.cons_append]
    unfold jsIndexOf
    rw [if_neg hxa]
    dsimp only
    rw [hih]
    have : ((xs.length : Int)) ≠ -1 := by omega
    rw [if_neg this]
    simp only [List.length_cons]
    push_cast
    ring

theorem insertIdx_len_append (l₁ t : List Nat) (k : Nat) (x : Nat) :
    (l₁ ++ t).insertIdx (l₁.length + k) x = l₁ ++ t.insertIdx k x := by
  induction l₁ with
  | nil => simp
  | cons y ys ih =>
    rw [List.cons_append, show (y :: ys).length = ys.length + 1 from rfl]
    rw [show ys.length + 1 + k = (ys.length + k) + 1 by ring]
    rw [List.insertIdx_succ_cons, ih, List.cons_append]

theorem jsSpliceInsert_after (l₁ l₂ : List Nat) (a x : Nat) :
    jsSpliceInsert (l₁ ++ a :: l₂) ((l₁.length : Int) + 1) x = l₁ ++ a :: x :: l₂ := by
  unfold jsSpliceInsert
  have hneg : ¬((l₁.length : Int) + 1 < 0) := by omega
  rw [if_neg hneg]
  have htn : ((l₁.length : Int) + 1).toNat = l₁.length + 1 := by omega
  rw [htn]
  have hmin : min (l₁.length + 1) (l₁ ++ a :: l₂).length = l₁.length + 1 := by
    simp only [List.length_append, List.length_cons]
    omega
  rw [hmin]
  rw [show l₁.length + 1 = l₁.length + 1 from rfl, insertIdx_len_append l₁ (a :: l₂) 1 x]
  rw [List.insertIdx_succ_cons, List.insertIdx_zero]

theorem jsSpliceInsert_before (l₁ l₂ : List Nat) (a x : Nat) :
    jsSpliceInsert (l₁ ++ a :: l₂) ((l₁.length : Int)) x = l₁ ++ x :: a :: l₂ := by
  unfold jsSpliceInsert
  have hneg : ¬((l₁.length : Int) < 0) := by omega
  rw [if_neg hneg]
  have htn : ((l₁.length : Int)).toNat = l₁.length := by omega
  rw [htn]
  have hmin : min (l₁.length) (l₁ ++ a :: l₂).length = l₁.length := by
    simp only [List.length_append, List.length_cons]
    omega
  rw [hmin]
  rw [show l₁.length = l₁.length + 0 by ring, insertIdx_len_append l₁ (a :: l₂) 0 x]
  rw [List.insertIdx_zero]

theorem nodup_insert_middle (l₁ l₂ : List Nat) (a n : Nat)
    (hnd : (l₁ ++ a :: l₂).Nodup) (hn : n ∉ l₁ ++ a :: l₂) :
    (l₁ ++ a :: n :: l₂).Nodup := by
  obtain ⟨nd1, nd2, disj⟩ := List.nodup_append.mp hnd
  rw [List.nodup_append]
  refine ⟨nd1, ?_, ?_⟩
  · rw [List.nodup_cons] at nd2 ⊢
    refine ⟨?_, ?_⟩
    · intro hc
      rcases List.mem_cons.mp hc with h | h
      · exact hn (by simp [h])
      · exact nd2.1 h
    · rw [List.nodup_cons]
      exact ⟨fun hc => hn (by simp [hc]), nd2.2⟩
  · intro b hb hc
    rcases List.mem_cons.mp hc with h | h
    · exact disj hb (by simp [h])
    · rcases List.mem_cons.mp h with h2 | h2
      · exact hn (by simp [h2 ▸ hb])
      · exact disj hb (by simp [h2])

/-- Proof-device name for the statements of appendSibling after the
DocumentNode guard and the initial detach. -/
def appendSibRest (e : Dom) (node after : Nat) : Dom :=
  let parent := (getN e after).parentNode
  let d2 := match parent with
    | some p =>
        let dA := updN e node (fun nd => { nd with parentNode := some p })
        let afterIndex := jsIndexOf (getN dA p).childNodes after
        updN dA p (fun nd => { nd with childNodes := jsSpliceInsert nd.childNodes (afterIndex + 1) node })
    | none => e
  let d3 := match (getN d2 after).nextSibling with
    | some ns =>
        let dA := updN d2 node (fun nd => { nd with nextSibling := some ns })
        updN dA ns (fun nd => { nd with prevSibling := some node })
    | none => d2
  let d4 := updN d3 after (fun nd => { nd with nextSibling := some node })
  updN d4 node (fun nd => { nd with prevSibling := some after })

theorem appendSiblingCore_eq (d : Dom) (node after : Nat) :
    appendSiblingCore d node after = appendSibRest (detatchNode d node) node after := rfl

theorem size_appendSibRest (e : Dom) (node after : Nat) :
    (appendSibRest e node after).size = e.size := by
  unfold appendSibRest
  dsimp only
  repeat' split
  all_goals rfl

theorem appendSibRest_childNodes (e : Dom) (node after p : Nat)
    (hp : (getN e after).parentNode = some p) :
    ∀ m, (getN (appendSibRest e node after) m).childNodes =
      if m = p then
        jsSpliceInsert (getN e p).childNodes
          (jsIndexOf (getN e p).childNodes after + 1) node
      else (getN e m).childNodes := by
  intro m
  unfold appendSibRest
  dsimp only
  rw [hp]
  dsimp only
  simp only [updP_child, updP_next, updC_next]
  rcases hnx : (getN e after).nextSibling with _ | ns
  all_goals dsimp only
  all_goals simp only [updP_child, updV_child, updX_child]
  all_goals rw [updC_child]
  all_goals by_cases hm : m = p
  all_goals simp [hm]

theorem appendSibRest_parentNode (e : Dom) (node after p : Nat)
    (hp : (getN e after).parentNode = some p) :
    ∀ m, (getN (appendSibRest e node after) m).parentNode =
      if m = node then some p else (getN e m).parentNode := by
  intro m
  unfold appendSibRest
  dsimp only
  rw [hp]
  dsimp only
  simp only [updP_next, updC_next]
  rcases hnx : (getN e after).nextSibling with _ | ns
  all_goals dsimp only
  all_goals simp only [updV_parent, updX_parent, updC_parent]
  all_goals rw [updP_parent]

theorem appendSibRest_next_after (e : Dom) (node after : Nat) (hne : node ≠ after) :
    (getN (appendSibRest e node after) after).nextSibling = some node := by
  unfold appendSibRest
  dsimp only
  simp only [updV_next]
  rw [updX_next, if_pos rfl]

theorem appendSibRest_prev_node (e : Dom) (node after : Nat) :
    (getN (appendSibRest e node after) node).prevSibling = some after := by
  unfold appendSibRest
  dsimp only
  rw [updV_prev, if_pos rfl]

theorem appendSibRest_next_node_some (e : Dom) (node after ns : Nat)
    (hp : (getN e after).parentNode ≠ none) (hne : node ≠ after)
    (hns : (getN e after).nextSibling = some ns) :
    (getN (appendSibRest e node after) node).nextSibling = some ns := by
  unfold appendSibRest
  dsimp only
  rcases hpv : (getN e after).parentNode with _ | p
  · exact absurd hpv hp
  all_goals dsimp only
  all_goals simp only [updP_next, updC_next]
  all_goals rw [hns]
  all_goals dsimp only
  all_goals simp only [updV_next]
  all_goals rw [updX_next, if_neg hne]
  all_goals simp only [updV_next]
  all_goals rw [updX_next, if_pos rfl]

theorem appendSibRest_next_node_none (e : Dom) (node after : Nat)
    (hp : (getN e after).parentNode ≠ none) (hne : node ≠ after)
    (hns : (getN e after).nextSibling = none) :
    (getN (appendSibRest e node after) node).nextSibling = (getN e node).nextSibling := by
  unfold appendSibRest
  dsimp only
  rcases hpv : (getN e after).parentNode with _ | p
  · exact absurd hpv hp
  all_goals dsimp only
  all_goals simp only [updP_next, updC_next]
  all_goals rw [hns]
  all_goals dsimp only
  all_goals simp only [updV_next]
  all_goals rw [updX_next, if_neg hne]
  all_goals simp only [updP_next, updC_next]

theorem appendSibRest_prev_hd (e : Dom) (node after ns : Nat)
    (hp : (getN e after).parentNode ≠ none)
    (hns : (getN e after).nextSibling = some ns) (hnsnode : ns ≠ node) :
    (getN (appendSibRest e node after) ns).prevSibling = some node := by
  unfold appendSibRest
  dsimp only
  rcases hpv : (getN e after).parentNode with _ | p
  · exact absurd hpv hp
  all_goals dsimp only
  all_goals simp only [updP_next, updC_next]
  all_goals rw [hns]
  all_goals dsimp only
  all_goals rw [updV_prev, if_neg hnsnode]
  all_goals simp only [updX_prev]
  all_goals rw [updV_prev, if_pos rfl]

theorem appendSibRest_prev_frame (e : Dom) (node after : Nat) :
    ∀ m, m ≠ node → (getN e after).nextSibling ≠ some m →
      (getN (appendSibRest e node after) m).prevSibling = (getN e m).prevSibling := by
  intro m hm hm2
  unfold appendSibRest
  dsimp only
  rcases hpv : (getN e after).parentNode with _ | p
  all_goals try dsimp only
  all_goals try simp only [updP_next, updC_next]
  all_goals rcases hnx : (getN e after).nextSibling with _ | ns
  all_goals try dsimp only
  all_goals rw [updV_prev, if_neg hm]
  all_goals try simp only [updX_prev, updP_prev, updC_prev]
  all_goals try rw [updV_prev, if_neg (fun hc : m = ns => hm2 (by rw [hnx, hc]))]
  all_goals try simp only [updX_prev, updP_prev, updC_prev]

theorem appendSibRest_next_frame (e : Dom) (node after : Nat) :
    ∀ m, m ≠ node → m ≠ after →
      (getN (appendSibRest e node after) m).nextSibling = (getN e m).nextSibling := by
  intro m hm hm2
  unfold appendSibRest
  dsimp only
  rcases hpv : (getN e after).parentNode with _ | p
  all_goals try dsimp only
  all_goals try simp only [updP_next, updC_next]
  all_goals rcases hnx : (getN e after).nextSibling with _ | ns
  all_goals try dsimp only
  all_goals try simp only [updV_next]
  all_goals rw [updX_next, if_neg hm2]
  all_goals try simp only [updV_next]
  all_goals try rw [updX_next, if_neg hm]
  all_goals try simp only [updP_next, updC_next]

theorem appendSibRest_isDocument (e : Dom) (node after : Nat) :
    ∀ m, (getN (appendSibRest e node after) m).isDocument = (getN e m).isDocument := by
  intro m
  unfold appendSibRest
  dsimp only
  rcases hpv : (getN e after).parentNode with _ | p
  all_goals try dsimp only
  all_goals try simp only [updP_next, updC_next, updP_doc, updC_doc, updV_doc, updX_doc]
  all_goals rcases hnx : (getN e after).nextSibling with _ | ns
  all_goals try dsimp only
  all_goals try simp only [updP_doc, updC_doc, updV_doc, updX_doc]

theorem inv_appendSibRest (e : Dom) (node after p : Nat) (hInv : TreeInv e)
    (hn : node < e.size) (ha : after < e.size) (hne : node ≠ after)
    (h0 : (getN e node).parentNode = none)
    (h1 : (getN e node).prevSibling = none)
    (h2 : (getN e node).nextSibling = none)
    (hp : (getN e after).parentNode = some p) :
    TreeInv (appendSibRest e node after) := by
  have hnotmem := detached_not_mem e hInv node h0
  have haOk := (hInv after ha).1
  unfold parentOk at haOk
  rw [hp] at haOk
  obtain ⟨hpsize, hamem⟩ := haOk
  obtain ⟨l₁, l₂, hl⟩ := List.append_of_mem hamem
  have hnd0 : (getN e p).childNodes.Nodup := (hInv p hpsize).2.2.1
  have hchOk : childOk e p := (hInv p hpsize).2.1
  have hnd : (l₁ ++ after :: l₂).Nodup := hl ▸ hnd0
  obtain ⟨ndl₁, ndcons, hdisj⟩ := List.nodup_append.mp hnd
  have hal₂ : after ∉ l₂ := (List.nodup_cons.mp ndcons).1
  have ndl₂ : l₂.Nodup := (List.nodup_cons.mp ndcons).2
  have hal₁ : after ∉ l₁ := fun hc => hdisj hc (by simp)
  have hnodeL : node ∉ (getN e p).childNodes := hnotmem p hpsize
  have hnodel₁ : node ∉ l₁ := fun hc => hnodeL (hl ▸ List.mem_append.mpr (Or.inl hc))
  have hnodel₂ : node ∉ l₂ := fun hc =>
    hnodeL (hl ▸ List.mem_append.mpr (Or.inr (List.mem_cons_of_mem _ hc)))
  have hsegf : seg e none (l₁ ++ after :: l₂) none := hl ▸ (hInv p hpsize).2.2.2.1
  rw [seg_append_iff] at hsegf
  obtain ⟨hsegl₁, hsegr⟩ := hsegf
  rw [seg] at hsegr
  obtain ⟨hpreva, hnexta, hsegl₂⟩ := hsegr
  rw [show headOr none (after :: l₂) = some after from rfl] at hsegl₁
  have hpne : (getN e after).parentNode ≠ none := by rw [hp]; simp
  have hidx : jsIndexOf (getN e p).childNodes after = (l₁.length : Int) := by
    rw [hl]
    exact jsIndexOf_append l₁ l₂ after hal₁
  have hspl : jsSpliceInsert (getN e p).childNodes
      (jsIndexOf (getN e p).childNodes after + 1) node = l₁ ++ after :: node :: l₂ := by
    rw [hidx, hl]
    exact jsSpliceInsert_after l₁ l₂ after node
  have Gc : ∀ m, (getN (appendSibRest e node after) m).childNodes =
      if m = p then l₁ ++ after :: node :: l₂ else (getN e m).childNodes := by
    intro m
    rw [appendSibRest_childNodes e node after p hp m, hspl]
  have Gp : ∀ m, (getN (appendSibRest e node after) m).parentNode =
      if m = node then some p else (getN e m).parentNode :=
    appendSibRest_parentNode e node after p hp
  have hLS : ∀ x ∈ (getN e p).childNodes, x ∈ l₁ ++ after :: node :: l₂ := by
    intro x hx
    rw [hl] at hx
    rcases List.mem_append.mp hx with h | h
    · exact List.mem_append.mpr (Or.inl h)
    · rcases List.mem_cons.mp h with h2 | h2
      · exact List.mem_append.mpr (Or.inr (by simp [h2]))
      · exact List.mem_append.mpr (Or.inr (by simp [h2]))
  have hSL : ∀ x ∈ l₁ ++ after :: node :: l₂, x = node ∨ x ∈ (getN e p).childNodes := by
    intro x hx
    rcases List.mem_append.mp hx with h | h
    · exact Or.inr (hl ▸ List.mem_append.mpr (Or.inl h))
    · rcases List.mem_cons.mp h with h2 | h2
      · exact Or.inr (hl ▸ List.mem_append.mpr (Or.inr (by simp [h2])))
      · rcases List.mem_cons.mp h2 with h3 | h3
        · exact Or.inl h3
        · exact Or.inr (hl ▸ List.mem_append.mpr (Or.inr (by simp [h3])))
  have hndS : (l₁ ++ after :: node :: l₂).Nodup :=
    nodup_insert_middle l₁ l₂ after node hnd
      (fun hc => hnodeL (hl ▸ hc))
  have hnextaNe : ∀ x, x ∈ l₁ ∨ x = after ∨ (getN e x).parentNode ≠ some p →
      (getN e after).nextSibling ≠ some x := by
    intro x hx hc
    rw [hnexta] at hc
    cases hl₂c : l₂ with
    | nil => rw [hl₂c] at hc; simp [headOr] at hc
    | cons ns l₂' =>
      rw [hl₂c] at hc
      have hns : ns = x := by simpa [headOr] using hc
      subst hns
      have hnsl₂ : ns ∈ l₂ := by rw [hl₂c]; simp
      rcases hx with h | h | h
      · exact hdisj h (by simp [hnsl₂])
      · exact hal₂ (h ▸ hnsl₂)
      · exact h (hchOk ns (hl ▸ List.mem_append.mpr (Or.inr (by simp [hnsl₂])))).2
  have hsegS : seg (appendSibRest e node after) none (l₁ ++ after :: node :: l₂) none := by
    rw [seg_append_iff]
    constructor
    · rw [show headOr none (after :: node :: l₂) = some after from rfl]
      apply seg_congr e (appendSibRest e node after) (some after) l₁ ?_ none hsegl₁
      intro x hx
      constructor
      · exact appendSibRest_prev_frame e node after x (fun hc => hnodel₁ (hc ▸ hx))
          (hnextaNe x (Or.inl hx))
      · exact appendSibRest_next_frame e node after x (fun hc => hnodel₁ (hc ▸ hx))
          (fun hc => hal₁ (hc ▸ hx))
    · rw [seg]
      refine ⟨?_, ?_, ?_⟩
      · rw [appendSibRest_prev_frame e node after after (fun hc => hne hc.symm)
          (hnextaNe after (Or.inr (Or.inl rfl)))]
        exact hpreva
      · rw [appendSibRest_next_after e node after hne]
        rfl
      · rw [seg]
        refine ⟨appendSibRest_prev_node e node after, ?_, ?_⟩
        · cases hl₂c : l₂ with
          | nil =>
            rw [appendSibRest_next_node_none e node after hpne hne
              (by rw [hnexta, hl₂c]; rfl), h2]
            rfl
          | cons ns l₂' =>
            rw [appendSibRest_next_node_some e node after ns hpne hne
              (by rw [hnexta, hl₂c]; rfl)]
            rfl
        · cases hl₂c : l₂ with
          | nil => trivial
          | cons ns l₂' =>
            have hnsl₂ : ns ∈ l₂ := by rw [hl₂c]; simp
            have hnsnode : ns ≠ node := fun hc => hnodel₂ (hc ▸ hnsl₂)
            subst hl₂c
            apply seg_retarget_head e (appendSibRest e node after) none (some after)
              (some node) ns (ns :: l₂') hsegl₂ ndl₂ rfl
            · intro x hx
              exact appendSibRest_next_frame e node after x
                (fun hc => hnodel₂ (hc ▸ hx)) (fun hc => hal₂ (hc ▸ hx))
            · intro x hx hxns
              apply appendSibRest_prev_frame e node after x (fun hc => hnodel₂ (hc ▸ hx))
              rw [hnexta]
              simp only [headOr]
              exact fun hc => hxns (Option.some_inj.mp hc).symm
            · exact appendSibRest_prev_hd e node after ns hpne
                (by rw [hnexta]; rfl) hnsnode
  intro i hi
  rw [size_appendSibRest] at hi
  refine ⟨?_, ?_, ?_, ?_, ?_⟩
  · unfold parentOk
    rw [Gp]
    by_cases hin : i = node
    · rw [if_pos hin]
      refine ⟨by rw [size_appendSibRest]; exact hpsize, ?_⟩
      rw [Gc, if_pos rfl]
      exact List.mem_append.mpr (Or.inr (by simp [hin]))
    · rw [if_neg hin]
      rcases hq : (getN e i).parentNode with _ | q
      · trivial
      · have hqOk := (hInv i hi).1
        unfold parentOk at hqOk
        rw [hq] at hqOk
        refine ⟨by rw [size_appendSibRest]; exact hqOk.1, ?_⟩
        rw [Gc]
        by_cases hqp : q = p
        · subst hqp
          rw [if_pos rfl]
          exact hLS i hqOk.2
        · rw [if_neg hqp]
          exact hqOk.2
  · intro c hc
    rw [Gc] at hc
    by_cases hip : i = p
    · rw [if_pos hip] at hc
      rcases hSL c hc with hcn | hcm
      · subst hcn
        refine ⟨by rw [size_appendSibRest]; exact hn, ?_⟩
        rw [Gp, if_pos rfl, hip]
      · have hcOk := hchOk c hcm
        have hcn : c ≠ node := fun hcc => hnodeL (hcc ▸ hcm)
        refine ⟨by rw [size_appendSibRest]; exact hcOk.1, ?_⟩
        rw [Gp, if_neg hcn, hcOk.2, hip]
    · rw [if_neg hip] at hc
      have hcOk := (hInv i hi).2.1 c hc
      have hcn : c ≠ node := by
        intro hcc
        subst hcc
        rw [hcOk.2] at h0
        exact Option.noConfusion h0
      refine ⟨by rw [size_appendSibRest]; exact hcOk.1, ?_⟩
      rw [Gp, if_neg hcn]
      exact hcOk.2
  · rw [Gc]
    by_cases hip : i = p
    · rw [if_pos hip]; exact hndS
    · rw [if_neg hip]; exact (hInv i hi).2.2.1
  · rw [Gc]
    by_cases hip : i = p
    · rw [if_pos hip]; exact hsegS
    · rw [if_neg hip]
      apply seg_congr e (appendSibRest e node after) none (getN e i).childNodes ?_ none
        (hInv i hi).2.2.2.1
      intro x hx
      have hxOk := (hInv i hi).2.1 x hx
      have hxpar : (getN e x).parentNode ≠ some p := by
        rw [hxOk.2]
        intro hc
        exact hip (Option.some_inj.mp hc)
      have hxnode : x ≠ node := by
        intro hcc
        subst hcc
        rw [hxOk.2] at h0
        exact Option.noConfusion h0
      have hxafter : x ≠ after := by
        intro hcc
        subst hcc
        rw [hxOk.2] at hp
        exact hxpar (by rw [hxOk.2]; exact hp)
      exact ⟨appendSibRest_prev_frame e node after x hxnode
          (hnextaNe x (Or.inr (Or.inr hxpar))),
        appendSibRest_next_frame e node after x hxnode hxafter⟩
  · intro hd
    rw [Gp] at hd
    by_cases hin : i = node
    · rw [if_pos hin] at hd
      exact Option.noConfusion hd
    · rw [if_neg hin] at hd
      have hold := (hInv i hi).2.2.2.2 hd
      have hipar : (getN e i).parentNode ≠ some p := by rw [hd]; simp
      have hiafter : i ≠ after := by
        intro hcc
        rw [hcc, hp] at hd
        exact Option.noConfusion hd
      exact ⟨by
          rw [appendSibRest_prev_frame e node after i hin
            (hnextaNe i (Or.inr (Or.inr hipar)))]
          exact hold.1,
        by
          rw [appendSibRest_next_frame e node after i hin hiafter]
          exact hold.2⟩

theorem inv_appendSiblingCore (d : Dom) (node after : Nat) (hInv : TreeInv d)
    (hn : node < d.size) (ha : after < d.size) (hne : node ≠ after)
    (hps : ((getN d after).parentNode).isSome = true) :
    TreeInv (appendSiblingCore d node after) := by
  rw [appendSiblingCore_eq]
  obtain ⟨p, hp⟩ := Option.isSome_iff_exists.mp hps
  have hd1 := inv_detatch d node hInv hn
  have hs := detatch_self_links d node
  have hp1 : (getN (detatchNode d node) after).parentNode = some p := by
    rw [detatch_parentNode_frame d node after (fun hc => hne hc.symm)]
    exact hp
  exact inv_appendSibRest _ node after p hd1 (by rw [detatch_size]; exact hn)
    (by rw [detatch_size]; exact ha) hne hs.1 hs.2.1 hs.2.2 hp1

theorem appendSiblingCore_parent (d : Dom) (node after p : Nat) (hne : node ≠ after)
    (hp : (getN d after).parentNode = some p) :
    (getN (appendSiblingCore d node after) node).parentNode = some p := by
  rw [appendSiblingCore_eq]
  have hp1 : (getN (detatchNode d node) after).parentNode = some p := by
    rw [detatch_parentNode_frame d node after (fun hc => hne hc.symm)]
    exact hp
  rw [appendSibRest_parentNode _ node after p hp1 node, if_pos rfl]

theorem size_appendSiblingCore (d : Dom) (node after : Nat) :
    (appendSiblingCore d node after).size = d.size := by
  rw [appendSiblingCore_eq, size_appendSibRest, detatch_size]

/-- Proof-device name for the statements of prependSibling after the
DocumentNode guard and the initial detach. -/
def prependSibRest (e : Dom) (node before : Nat) : Dom :=
  let parent := (getN e before).parentNode
  let d2 := match parent with
    | some p =>
        let dA := updN e node (fun nd => { nd with parentNode := some p })
        let beforeIndex := jsIndexOf (getN dA p).childNodes before
        updN dA p (fun nd => { nd with childNodes := jsSpliceInsert nd.childNodes beforeIndex node })
    | none => e
  let d3 := match (getN d2 before).prevSibling with
    | some ps =>
        let dA := updN d2 node (fun nd => { nd with prevSibling := some ps })
        updN dA ps (fun nd => { nd with nextSibling := some node })
    | none => d2
  let d4 := updN d3 before (fun nd => { nd with prevSibling := some node })
  updN d4 node (fun nd => { nd with nextSibling := some before })

theorem prependSiblingCore_eq (d : Dom) (node before : Nat) :
    prependSiblingCore d node before = prependSibRest (detatchNode d node) node before := rfl

theorem size_prependSibRest (e : Dom) (node before : Nat) :
    (prependSibRest e node before).size = e.size := by
  unfold prependSibRest
  dsimp only
  repeat' split
  all_goals rfl

theorem prependSibRest_childNodes (e : Dom) (node before p : Nat)
    (hp : (getN e before).parentNode = some p) :
    ∀ m, (getN (prependSibRest e node before) m).childNodes =
      if m = p then
        jsSpliceInsert (getN e p).childNodes
          (jsIndexOf (getN e p).childNodes before) node
      else (getN e m).childNodes := by
  intro m
  unfold prependSibRest
  dsimp only
  rw [hp]
  dsimp only
  simp only [updP_child, updP_prev, updC_prev]
  rcases hnx : (getN e before).prevSibling with _ | ps
  all_goals dsimp only
  all_goals simp only [updP_child, updV_child, updX_child]
  all_goals rw [updC_child]
  all_goals by_cases hm : m = p
  all_goals simp [hm]

theorem prependSibRest_parentNode (e : Dom) (node before p : Nat)
    (hp : (getN e before).parentNode = some p) :
    ∀ m, (getN (prependSibRest e node before) m).parentNode =
      if m = node then some p else (getN e m).parentNode := by
  intro m
  unfold prependSibRest
  dsimp only
  rw [hp]
  dsimp only
  simp only [updP_prev, updC_prev]
  rcases hnx : (getN e before).prevSibling with _ | ps
  all_goals dsimp only
  all_goals simp only [updV_parent, updX_parent, updC_parent]
  all_goals rw [updP_parent]

theorem prependSibRest_prev_before (e : Dom) (node before : Nat) (hne : node ≠ before) :
    (getN (prependSibRest e node before) before).prevSibling = some node := by
  unfold prependSibRest
  dsimp only
  simp only [updX_prev]
  rw [updV_prev, if_pos rfl]

theorem prependSibRest_next_node (e : Dom) (node before : Nat) :
    (getN (prependSibRest e node before) node).nextSibling = some before := by
  unfold prependSibRest
  dsimp only
  rw [updX_next, if_pos rfl]

theorem prependSibRest_prev_node_some (e : Dom) (node before ps : Nat)
    (hp : (getN e before).parentNode ≠ none) (hne : node ≠ before)
    (hns : (getN e before).prevSibling = some ps) :
    (getN (prependSibRest e node before) node).prevSibling = some ps := by
  unfold prependSibRest
  dsimp only
  rcases hpv : (getN e before).parentNode with _ | p
  · exact absurd hpv hp
  all_goals dsimp only
  all_goals simp only [updP_prev, updC_prev]
  all_goals rw [hns]
  all_goals dsimp only
  all_goals simp only [updX_prev]
  all_goals rw [updV_prev, if_neg hne]
  all_goals simp only [updX_prev]
  all_goals rw [updV_prev, if_pos rfl]

theorem prependSibRest_prev_node_none (e : Dom) (node before : Nat)
    (hp : (getN e before).parentNode ≠ none) (hne : node ≠ before)
    (hns : (getN e before).prevSibling = none) :
    (getN (prependSibRest e node before) node).prevSibling = (getN e node).prevSibling := by
  unfold prependSibRest
  dsimp only
  rcases hpv : (getN e before).parentNode with _ | p
  · exact absurd hpv hp
  all_goals dsimp only
  all_goals simp only [updP_prev, updC_prev]
  all_goals rw [hns]
  all_goals dsimp only
  all_goals simp only [updX_prev]
  all_goals rw [updV_prev, if_neg hne]
  all_goals simp only [updP_prev, updC_prev]

theorem prependSibRest_next_tl (e : Dom) (node before ps : Nat)
    (hp : (getN e before).parentNode ≠ none)
    (hns : (getN e before).prevSibling = some ps) (hpsnode : ps ≠ node) :
    (getN (prependSibRest e node before) ps).nextSibling = some node := by
  unfold prependSibRest
  dsimp only
  rcases hpv : (getN e before).parentNode with _ | p
  · exact absurd hpv hp
  all_goals dsimp only
  all_goals simp only [updP_prev, updC_prev]
  all_goals rw [hns]
  all_goals dsimp only
  all_goals rw [updX_next, if_neg hpsnode]
  all_goals simp only [updV_next]
  all_goals rw [updX_next, if_pos rfl]

theorem prependSibRest_next_frame (e : Dom) (node before : Nat) :
    ∀ m, m ≠ node → (getN e before).prevSibling ≠ some m →
      (getN (prependSibRest e node before) m).nextSibling = (getN e m).nextSibling := by
  intro m hm hm2
  unfold prependSibRest
  dsimp only
  rcases hpv : (getN e before).parentNode with _ | p
  all_goals try dsimp only
  all_goals try simp only [updP_prev, updC_prev]
  all_goals rcases hnx : (getN e before).prevSibling with _ | ps
  all_goals try dsimp only
  all_goals rw [updX_next, if_neg hm]
  all_goals try simp only [updV_next, updP_next, updC_next]
  all_goals try rw [updX_next, if_neg (fun hc : m = ps => hm2 (by rw [hnx, hc]))]
  all_goals try simp only [updV_next, updP_next, updC_next]

theorem prependSibRest_prev_frame (e : Dom) (node before : Nat) :
    ∀ m, m ≠ node → m ≠ before →
      (getN (prependSibRest e node before) m).prevSibling = (getN e m).prevSibling := by
  intro m hm hm2
  unfold prependSibRest
  dsimp only
  rcases hpv : (getN e before).parentNode with _ | p
  all_goals try dsimp only
  all_goals try simp only [updP_prev, updC_prev]
  all_goals rcases hnx : (getN e before).prevSibling with _ | ps
  all_goals try dsimp only
  all_goals try simp only [updX_prev]
  all_goals rw [updV_prev, if_neg hm2]
  all_goals try simp only [updX_prev]
  all_goals try rw [updV_prev, if_neg hm]
  all_goals try simp only [updP_prev, updC_prev]

theorem inv_prependSibRest (e : Dom) (node before p : Nat) (hInv : TreeInv e)
    (hn : node < e.size) (ha : before < e.size) (hne : node ≠ before)
    (h0 : (getN e node).parentNode = none)
    (h1 : (getN e node).prevSibling = none)
    (h2 : (getN e node).nextSibling = none)
    (hp : (getN e before).parentNode = some p) :
    TreeInv (prependSibRest e node before) := by
  have hnotmem := detached_not_mem e hInv node h0
  have haOk := (hInv before ha).1
  unfold parentOk at haOk
  rw [hp] at haOk
  obtain ⟨hpsize, hamem⟩ := haOk
  obtain ⟨l₁, l₂, hl⟩ := List.append_of_mem hamem
  have hnd0 : (getN e p).childNodes.Nodup := (hInv p hpsize).2.2.1
  have hchOk : childOk e p := (hInv p hpsize).2.1
  have hnd : (l₁ ++ before :: l₂).Nodup := hl ▸ hnd0
  obtain ⟨ndl₁, ndcons, hdisj⟩ := List.nodup_append.mp hnd
  have hal₂ : before ∉ l₂ := (List.nodup_cons.mp ndcons).1
  have ndl₂ : l₂.Nodup := (List.nodup_cons.mp ndcons).2
  have hal₁ : before ∉ l₁ := fun hc => hdisj hc (by simp)
  have hnodeL : node ∉ (getN e p).childNodes := hnotmem p hpsize
  have hnodel₁ : node ∉ l₁ := fun hc => hnodeL (hl ▸ List.mem_append.mpr (Or.inl hc))
  have hnodel₂ : node ∉ l₂ := fun hc =>
    hnodeL (hl ▸ List.mem_append.mpr (Or.inr (List.mem_cons_of_mem _ hc)))
  have hsegf : seg e none (l₁ ++ before :: l₂) none := hl ▸ (hInv p hpsize).2.2.2.1
  rw [seg_append_iff] at hsegf
  obtain ⟨hsegl₁, hsegr⟩ := hsegf
  rw [seg] at hsegr
  obtain ⟨hpreva, hnexta, hsegl₂⟩ := hsegr
  rw [show headOr none (before :: l₂) = some before from rfl] at hsegl₁
  have hpne : (getN e before).parentNode ≠ none := by rw [hp]; simp
  have hidx : jsIndexOf (getN e p).childNodes before = (l₁.length : Int) := by
    rw [hl]
    exact jsIndexOf_append l₁ l₂ before hal₁
  have hspl : jsSpliceInsert (getN e p).childNodes
      (jsIndexOf (getN e p).childNodes before) node = l₁ ++ node :: before :: l₂ := by
    rw [hidx, hl]
    exact jsSpliceInsert_before l₁ l₂ before node
  have Gc : ∀ m, (getN (prependSibRest e node before) m).childNodes =
      if m = p then l₁ ++ node :: before :: l₂ else (getN e m).childNodes := by
    intro m
    rw [prependSibRest_childNodes e node before p hp m, hspl]
  have Gp : ∀ m, (getN (prependSibRest e node before) m).parentNode =
      if m = node then some p else (getN e m).parentNode :=
    prependSibRest_parentNode e node before p hp
  have hLS : ∀ x ∈ (getN e p).childNodes, x ∈ l₁ ++ node :: before :: l₂ := by
    intro x hx
    rw [hl] at hx
    rcases List.mem_append.mp hx with h | h
    · exact List.mem_append.mpr (Or.inl h)
    · rcases List.mem_cons.mp h with h2 | h2
      · exact List.mem_append.mpr (Or.inr (by simp [h2]))
      · exact List.mem_append.mpr (Or.inr (by simp [h2]))
  have hSL : ∀ x ∈ l₁ ++ node :: before :: l₂, x = node ∨ x ∈ (getN e p).childNodes := by
    intro x hx
    rcases List.mem_append.mp hx with h | h
    · exact Or.inr (hl ▸ List.mem_append.mpr (Or.inl h))
    · rcases List.mem_cons.mp h with h2 | h2
      · exact Or.inl h2
      · rcases List.mem_cons.mp h2 with h3 | h3
        · exact Or.inr (hl ▸ List.mem_append.mpr (Or.inr (by simp [h3])))
        · exact Or.inr (hl ▸ List.mem_append.mpr (Or.inr (by simp [h3])))
  have hndS : (l₁ ++ node :: before :: l₂).Nodup := by
    have base : (l₁ ++ before :: l₂).Nodup := hnd
    have hnmem : node ∉ l₁ ++ before :: l₂ := fun hc => hnodeL (hl ▸ hc)
    rw [List.nodup_append]
    obtain ⟨b1, b2, b3⟩ := List.nodup_append.mp base
    refine ⟨b1, ?_, ?_⟩
    · rw [List.nodup_cons]
      exact ⟨fun hc => hnmem (by simp [hc]), b2⟩
    · intro a haa hab
      rcases List.mem_cons.mp hab with hh | hh
      · exact hnmem (by simp [hh ▸ haa])
      · exact b3 haa hh
  have hprevaNe : ∀ x, x ∈ l₂ ∨ x = before ∨ (getN e x).parentNode ≠ some p →
      (getN e before).prevSibling ≠ some x := by
    intro x hx hc
    rw [hpreva] at hc
    cases hgl : l₁.getLast? with
    | none =>
      rw [List.getLast?_eq_none_iff.mp hgl] at hc
      simp [lastOr] at hc
    | some ls =>
      rw [lastOr_eq_some l₁ none ls hgl] at hc
      have hlx : ls = x := Option.some_inj.mp hc
      subst hlx
      have hlsl₁ : ls ∈ l₁ := List.mem_of_mem_getLast? hgl
      rcases hx with h | h | h
      · exact hdisj hlsl₁ (by simp [h])
      · exact hal₁ (h ▸ hlsl₁)
      · exact h (hchOk ls (hl ▸ List.mem_append.mpr (Or.inl hlsl₁))).2
  have hsegS : seg (prependSibRest e node before) none (l₁ ++ node :: before :: l₂) none := by
    rw [seg_append_iff]
    constructor
    · rw [show headOr none (node :: before :: l₂) = some node from rfl]
      cases hgl : l₁.getLast? with
      | none =>
        rw [List.getLast?_eq_none_iff.mp hgl]
        trivial
      | some ls =>
        have hlsl₁ : ls ∈ l₁ := List.mem_of_mem_getLast? hgl
        have hlsnode : ls ≠ node := fun hc => hnodel₁ (hc ▸ hlsl₁)
        apply seg_retarget_last e (prependSibRest e node before) (some before) (some node)
          ls l₁ none hsegl₁ ndl₁ hgl
        · intro x hx
          exact prependSibRest_prev_frame e node before x
            (fun hc => hnodel₁ (hc ▸ hx)) (fun hc => hal₁ (hc ▸ hx))
        · intro x hx hxls
          apply prependSibRest_next_frame e node before x (fun hc => hnodel₁ (hc ▸ hx))
          rw [hpreva, lastOr_eq_some l₁ none ls hgl]
          exact fun hc => hxls (Option.some_inj.mp hc).symm
        · exact prependSibRest_next_tl e node before ls hpne
            (by rw [hpreva, lastOr_eq_some l₁ none ls hgl]) hlsnode
    · rw [seg]
      refine ⟨?_, ?_, ?_⟩
      · cases hgl : l₁.getLast? with
        | none =>
          have hl₁nil : l₁ = [] := List.getLast?_eq_none_iff.mp hgl
          rw [prependSibRest_prev_node_none e node before hpne hne
            (by rw [hpreva, hl₁nil]; rfl), h1, hl₁nil]
          rfl
        | some ls =>
          rw [prependSibRest_prev_node_some e node before ls hpne hne
            (by rw [hpreva, lastOr_eq_some l₁ none ls hgl]),
            lastOr_eq_some l₁ none ls hgl]
      · rw [prependSibRest_next_node e node before]
        rfl
      · rw [seg]
        refine ⟨prependSibRest_prev_before e node before hne, ?_, ?_⟩
        · rw [prependSibRest_next_frame e node before before (fun hc => hne hc.symm)
            (hprevaNe before (Or.inr (Or.inl rfl)))]
          rw [hnexta]
        · apply seg_congr e (prependSibRest e node before) none l₂ ?_ (some before) hsegl₂
          intro x hx
          constructor
          · exact prependSibRest_prev_frame e node before x
              (fun hc => hnodel₂ (hc ▸ hx)) (fun hc => hal₂ (hc ▸ hx))
          · exact prependSibRest_next_frame e node before x
              (fun hc => hnodel₂ (hc ▸ hx)) (hprevaNe x (Or.inl hx))
  intro i hi
  rw [size_prependSibRest] at hi
  refine ⟨?_, ?_, ?_, ?_, ?_⟩
  · unfold parentOk
    rw [Gp]
    by_cases hin : i = node
    · rw [if_pos hin]
      refine ⟨by rw [size_prependSibRest]; exact hpsize, ?_⟩
      rw [Gc, if_pos rfl]
      exact List.mem_append.mpr (Or.inr (by simp [hin]))
    · rw [if_neg hin]
      rcases hq : (getN e i).parentNode with _ | q
      · trivial
      · have hqOk := (hInv i hi).1
        unfold parentOk at hqOk
        rw [hq] at hqOk
        refine ⟨by rw [size_prependSibRest]; exact hqOk.1, ?_⟩
        rw [Gc]
        by_cases hqp : q = p
        · subst hqp
          rw [if_pos rfl]
          exact hLS i hqOk.2
        · rw [if_neg hqp]
          exact hqOk.2
  · intro c hc
    rw [Gc] at hc
    by_cases hip : i = p
    · rw [if_pos hip] at hc
      rcases hSL c hc with hcn | hcm
      · subst hcn
        refine ⟨by rw [size_prependSibRest]; exact hn, ?_⟩
        rw [Gp, if_pos rfl, hip]
      · have hcOk := hchOk c hcm
        have hcn : c ≠ node := fun hcc => hnodeL (hcc ▸ hcm)
        refine ⟨by rw [size_prependSibRest]; exact hcOk.1, ?_⟩
        rw [Gp, if_neg hcn, hcOk.2, hip]
    · rw [if_neg hip] at hc
      have hcOk := (hInv i hi).2.1 c hc
      have hcn : c ≠ node := by
        intro hcc
        subst hcc
        rw [hcOk.2] at h0
        exact Option.noConfusion h0
      refine ⟨by rw [size_prependSibRest]; exact hcOk.1, ?_⟩
      rw [Gp, if_neg hcn]
      exact hcOk.2
  · rw [Gc]
    by_cases hip : i = p
    · rw [if_pos hip]; exact hndS
    · rw [if_neg hip]; exact (hInv i hi).2.2.1
  · rw [Gc]
    by_cases hip : i = p
    · rw [if_pos hip]; exact hsegS
    · rw [if_neg hip]
      apply seg_congr e (prependSibRest e node before) none (getN e i).childNodes ?_ none
        (hInv i hi).2.2.2.1
      intro x hx
      have hxOk := (hInv i hi).2.1 x hx
      have hxpar : (getN e x).parentNode ≠ some p := by
        rw [hxOk.2]
        intro hc
        exact hip (Option.some_inj.mp hc)
      have hxnode : x ≠ node := by
        intro hcc
        subst hcc
        rw [hxOk.2] at h0
        exact Option.noConfusion h0
      have hxbefore : x ≠ before := by
        intro hcc
        subst hcc
        exact hxpar (by rw [hxOk.2]; rw [hxOk.2] at hp; exact hp)
      exact ⟨prependSibRest_prev_frame e node before x hxnode hxbefore,
        prependSibRest_next_frame e node before x hxnode
          (hprevaNe x (Or.inr (Or.inr hxpar)))⟩
  · intro hd
    rw [Gp] at hd
    by_cases hin : i = node
    · rw [if_pos hin] at hd
      exact Option.noConfusion hd
    · rw [if_neg hin] at hd
      have hold := (hInv i hi).2.2.2.2 hd
      have hipar : (getN e i).parentNode ≠ some p := by rw [hd]; simp
      have hibefore : i ≠ before := by
        intro hcc
        rw [hcc, hp] at hd
        exact Option.noConfusion hd
      exact ⟨by
          rw [prependSibRest_prev_frame e node before i hin hibefore]
          exact hold.1,
        by
          rw [prependSibRest_next_frame e node before i hin
            (hprevaNe i (Or.inr (Or.inr hipar)))]
          exact hold.2⟩

theorem inv_prependSiblingCore (d : Dom) (node before : Nat) (hInv : TreeInv d)
    (hn : node < d.size) (ha : before < d.size) (hne : node ≠ before)
    (hps : ((getN d before).parentNode).isSome = true) :
    TreeInv (prependSiblingCore d node before) := by
  rw [prependSiblingCore_eq]
  obtain ⟨p, hp⟩ := Option.isSome_iff_exists.mp hps
  have hd1 := inv_detatch d node hInv hn
  have hs := detatch_self_links d node
  have hp1 : (getN (detatchNode d node) before).parentNode = some p := by
    rw [detatch_parentNode_frame d node before (fun hc => hne hc.symm)]
    exact hp
  exact inv_prependSibRest _ node before p hd1 (by rw [detatch_size]; exact hn)
    (by rw [detatch_size]; exact ha) hne hs.1 hs.2.1 hs.2.2 hp1

theorem inv_replaceNodeLoop : ∀ (reps : List Nat) (d : Dom) (prevNode : Nat) (d' : Dom),
    TreeInv d → prevNode < d.size → (∀ r ∈ reps, r < d.size) →
    List.Chain' (fun a b => a ≠ b) (prevNode :: reps) →
    ((getN d prevNode).parentNode).isSome = true →
    replaceNodeLoop d prevNode reps = Except.ok d' →
    TreeInv d' ∧ d'.size = d.size := by
  intro reps
  induction reps with
  | nil =>
    intro d prevNode d' hInv _ _ _ _ hok
    rw [replaceNodeLoop] at hok
    injection hok with h
    subst h
    exact ⟨hInv, rfl⟩
  | cons r rest ih =>
    intro d prevNode d' hInv hprev hreps hchain hpar hok
    rw [replaceNodeLoop] at hok
    unfold appendSibling at hok
    by_cases hdoc : (getN d prevNode).isDocument = true
    · rw [if_pos hdoc] at hok
      have hok2 : (Except.error "Attempting to append after DocumentNode" : Except String Dom)
          = Except.ok d' := hok
      exact Except.noConfusion hok2
    · rw [if_neg hdoc] at hok
      have hok2 : replaceNodeLoop (appendSiblingCore d r prevNode) r rest
          = Except.ok d' := hok
      obtain ⟨p, hp⟩ := Option.isSome_iff_exists.mp hpar
      obtain ⟨hne, hchain'⟩ := List.chain'_cons.mp hchain
      have hrsize : r < d.size := hreps r (by simp)
      have hInv1 := inv_appendSiblingCore d r prevNode hInv hrsize hprev
        (fun hc => hne hc.symm) hpar
      have hpar2 : (getN (appendSiblingCore d r prevNode) r).parentNode = some p :=
        appendSiblingCore_parent d r prevNode p (fun hc => hne hc.symm) hp
      obtain ⟨h1, h2⟩ := ih (appendSiblingCore d r prevNode) r d' hInv1
        (by rw [size_appendSiblingCore]; exact hrsize)
        (fun x hx => by rw [size_appendSiblingCore]; exact hreps x (by simp [hx]))
        hchain' (by rw [hpar2]; rfl) hok2
      exact ⟨h1, by rw [h2, size_appendSiblingCore]⟩

theorem inv_replaceNode (d : Dom) (remove : Nat) (reps : List Nat) (d' : Dom)
    (hInv : TreeInv d) (hr : remove < d.size) (hreps : ∀ x ∈ reps, x < d.size)
    (hchain : List.Chain' (fun a b => a ≠ b) (remove :: reps))
    (hp : ((getN d remove).parentNode).isSome = true)
    (hok : replaceNode d remove reps = Except.ok d') :
    TreeInv d' := by
  unfold replaceNode at hok
  cases hloop : replaceNodeLoop d remove reps with
  | error err =>
    rw [hloop] at hok
    have hok2 : (Except.error err : Except String Dom) = Except.ok d' := hok
    exact Except.noConfusion hok2
  | ok d1 =>
    rw [hloop] at hok
    have hok2 : (Except.ok (detatchNode d1 remove) : Except String Dom)
        = Except.ok d' := hok
    injection hok2 with h
    obtain ⟨hi1, hs1⟩ := inv_replaceNodeLoop reps d remove d1 hInv hr hreps hchain hp hloop
    exact h ▸ inv_detatch d1 remove hi1 (by rw [hs1]; exact hr)

/-- C3 (amended): detatchNode, appendChild and prependChild preserve the
tree invariant unconditionally (for in-range nodes); appendSibling and
prependSibling preserve it provided the anchor is a distinct node that
currently has a parent; replaceNode preserves it provided the removed node
has a parent and consecutive nodes of the insertion chain are distinct.
Without the sibling-insertion conditions the invariant can break, as
appendSibling_breaks_invariant shows on a parentless anchor. -/
theorem structural_primitives_preserve_invariant :
    (∀ (d : Dom) (n : Nat), TreeInv d → n < d.size → TreeInv (detatchNode d n)) ∧
    (∀ (d : Dom) (p c : Nat), TreeInv d → p < d.size → c < d.size →
      TreeInv (appendChild d p c)) ∧
    (∀ (d : Dom) (p c : Nat), TreeInv d → p < d.size → c < d.size →
      TreeInv (prependChild d p c)) ∧
    (∀ (d : Dom) (n a : Nat) (d' : Dom), TreeInv d → n < d.size → a < d.size → n ≠ a →
      ((getN d a).parentNode).isSome = true → appendSibling d n a = Except.ok d' →
      TreeInv d') ∧
    (∀ (d : Dom) (n b : Nat) (d' : Dom), TreeInv d → n < d.size → b < d.size → n ≠ b →
      ((getN d b).parentNode).isSome = true → prependSibling d n b = Except.ok d' →
      TreeInv d') ∧
    (∀ (d : Dom) (r : Nat) (reps : List Nat) (d' : Dom), TreeInv d → r < d.size →
      (∀ x ∈ reps, x < d.size) → List.Chain' (fun a b => a ≠ b) (r :: reps) →
      ((getN d r).parentNode).isSome = true → replaceNode d r reps = Except.ok d' →
      TreeInv d') := by
  refine ⟨inv_detatch, inv_appendChild, inv_prependChild, ?_, ?_, ?_⟩
  · intro d n a d' hInv hn ha hne hps hok
    unfold appendSibling at hok
    by_cases hdoc : (getN d a).isDocument = true
    · rw [if_pos hdoc] at hok
      exact Except.noConfusion hok
    · rw [if_neg hdoc] at hok
      injection hok with h
      exact h ▸ inv_appendSiblingCore d n a hInv hn ha hne hps
  · intro d n b d' hInv hn hb hne hps hok
    unfold prependSibling at hok
    by_cases hdoc : (getN d b).isDocument = true
    · rw [if_pos hdoc] at hok
      exact Except.noConfusion hok
    · rw [if_neg hdoc] at hok
      injection hok with h
      exact h ▸ inv_prependSiblingCore d n b hInv hn hb hne hps
  · exact inv_replaceNode

theorem structural_primitives_preserve_invariant_witness :
    TreeInv wDom ∧
    TreeInv (detatchNode wDom 1) ∧
    TreeInv (appendChild wDom 0 2) ∧
    TreeInv (prependChild wDom 0 2) ∧
    TreeInv (appendSiblingCore wDom 2 1) ∧
    TreeInv (prependSiblingCore wDom 2 1) ∧
    TreeInv (detatchNode (appendSiblingCore wDom 2 1) 1) :=
  ⟨by decide,
   structural_primitives_preserve_invariant.1 wDom 1 (by decide) (by decide),
   structural_primitives_preserve_invariant.2.1 wDom 0 2 (by decide) (by decide) (by decide),
   structural_primitives_preserve_invariant.2.2.1 wDom 0 2 (by decide) (by decide) (by decide),
   structural_primitives_preserve_invariant.2.2.2.1 wDom 2 1 (appendSiblingCore wDom 2 1)
     (by decide) (by decide) (by decide) (by decide) (by decide) rfl,
   structural_primitives_preserve_invariant.2.2.2.2.1 wDom 2 1 (prependSiblingCore wDom 2 1)
     (by decide) (by decide) (by decide) (by decide) (by decide) rfl,
   structural_primitives_preserve_invariant.2.2.2.2.2 wDom 1 [2]
     (detatchNode (appendSiblingCore wDom 2 1) 1)
     (by decide) (by decide) (by decide)
     (List.chain'_cons.mpr ⟨by decide, List.chain'_singleton 2⟩) (by decide) rfl⟩

/-! Effect lemmas for appendChild, used by the swapNode analysis. -/

theorem appendRest_childNodes (e : Dom) (parent child : Nat) :
    ∀ m, (getN (appendRest e parent child) m).childNodes =
      if m = parent then (getN e parent).childNodes ++ [child]
      else (getN e m).childNodes := by
  intro m
  unfold appendRest
  dsimp only
  rcases hlc : getLastNode (getN e parent).childNodes with _ | lc
  all_goals dsimp only
  all_goals simp only [updP_child, updV_child, updX_child]
  all_goals rw [updC_child]
  all_goals by_cases hm : m = parent
  all_goals simp [hm]

theorem appendRest_parentNode (e : Dom) (parent child : Nat) :
    ∀ m, (getN (appendRest e parent child) m).parentNode =
      if m = child then some parent else (getN e m).parentNode := by
  intro m
  unfold appendRest
  dsimp only
  rcases hlc : getLastNode (getN e parent).childNodes with _ | lc
  all_goals dsimp only
  all_goals rw [updP_parent]
  all_goals simp only [updC_parent]
  all_goals try simp only [updV_parent, updX_parent]

theorem appendRest_isDocument (e : Dom) (parent child : Nat) :
    ∀ m, (getN (appendRest e parent child) m).isDocument = (getN e m).isDocument := by
  intro m
  unfold appendRest
  dsimp only
  rcases hlc : getLastNode (getN e parent).childNodes with _ | lc
  all_goals dsimp only
  all_goals simp only [updP_doc, updC_doc, updV_doc, updX_doc]

theorem size_appendChild (d : Dom) (parent child : Nat) :
    (appendChild d parent child).size = d.size := by
  rw [appendChild_eq, size_appendRest, detatch_size]

theorem appendChild_effect (d : Dom) (S c R : Nat)
    (hc : (getN d c).parentNode = some R) (hRS : R ≠ S) :
    (getN (appendChild d S c) S).childNodes = (getN d S).childNodes ++ [c] ∧
    (getN (appendChild d S c) R).childNodes
      = (getN d R).childNodes.filter (fun x => x != c) ∧
    (∀ m, m ≠ R → m ≠ S → (getN (appendChild d S c) m).childNodes
      = (getN d m).childNodes) ∧
    (getN (appendChild d S c) c).parentNode = some S ∧
    (∀ m, m ≠ c → (getN (appendChild d S c) m).parentNode = (getN d m).parentNode) ∧
    (∀ m, (getN (appendChild d S c) m).isDocument = (getN d m).isDocument) := by
  rw [appendChild_eq]
  have hdc : ∀ m, (getN (detatchNode d c) m).childNodes =
      if m = R then (getN d m).childNodes.filter (fun x => x != c)
      else (getN d m).childNodes := by
    intro m
    rw [detatch_childNodes, hc]
    by_cases hm : m = R
    · subst hm
      rw [if_pos rfl, if_pos rfl]
    · rw [if_neg (fun hcc : some R = some m => hm (Option.some_inj.mp hcc).symm), if_neg hm]
  refine ⟨?_, ?_, ?_, ?_, ?_, ?_⟩
  · rw [appendRest_childNodes _ S c S, if_pos rfl, hdc S,
      if_neg (fun hcc : S = R => hRS hcc.symm)]
  · rw [appendRest_childNodes _ S c R, if_neg hRS, hdc R, if_pos rfl]
  · intro m hmR hmS
    rw [appendRest_childNodes _ S c m, if_neg hmS, hdc m, if_neg hmR]
  · rw [appendRest_parentNode _ S c c, if_pos rfl]
  · intro m hm
    rw [appendRest_parentNode _ S c m, if_neg hm, detatch_parentNode_frame d c m hm]
  · intro m
    rw [appendRest_isDocument _ S c m, detatch_isDocument_frame d c m]

theorem map_replace (l₁ l₂ : List Nat) (R S : Nat) (h₁ : R ∉ l₁) (h₂ : R ∉ l₂) :
    (l₁ ++ R :: l₂).map (fun x => if x = R then S else x) = l₁ ++ S :: l₂ := by
  have e0 : ∀ (l : List Nat), R ∉ l → l.map (fun x => if x = R then S else x) = l := by
    intro l hl
    induction l with
    | nil => rfl
    | cons a t ih =>
      simp only [List.map_cons]
      rw [if_neg (fun hc => hl (by simp [hc])), ih (fun hc => hl (by simp [hc]))]
  rw [List.map_append, List.map_cons, if_pos rfl, e0 l₁ h₁, e0 l₂ h₂]

theorem appendChildNodes_effect (S R : Nat) (hRS : R ≠ S) :
    ∀ (cs : List Nat) (d : Dom), TreeInv d → R < d.size → S < d.size →
      (getN d R).childNodes = cs → R ∉ cs → S ∉ cs →
      TreeInv (appendChildNodes d S cs) ∧
      (appendChildNodes d S cs).size = d.size ∧
      (getN (appendChildNodes d S cs) S).childNodes = (getN d S).childNodes ++ cs ∧
      (getN (appendChildNodes d S cs) R).childNodes = [] ∧
      (∀ m, m ≠ R → m ≠ S →
        (getN (appendChildNodes d S cs) m).childNodes = (getN d m).childNodes) ∧
      (∀ m, m ∉ cs →
        (getN (appendChildNodes d S cs) m).parentNode = (getN d m).parentNode) ∧
      (∀ m, (getN (appendChildNodes d S cs) m).isDocument = (getN d m).isDocument) := by
  intro cs
  induction cs with
  | nil =>
    intro d hInv hR hS hcs _ _
    refine ⟨hInv, rfl, ?_, ?_, fun m _ _ => rfl, fun m _ => rfl, fun m => rfl⟩
    · simp [appendChildNodes]
    · simpa [appendChildNodes] using hcs
  | cons c rest ih =>
    intro d hInv hR hS hcs hRnot hSnot
    have hcmem : c ∈ (getN d R).childNodes := by rw [hcs]; exact List.mem_cons_self c rest
    have hcOk := (hInv R hR).2.1 c hcmem
    have hnd : ((getN d R).childNodes).Nodup := (hInv R hR).2.2.1
    have hcrest : c ∉ rest := by
      rw [hcs] at hnd
      exact (List.nodup_cons.mp hnd).1
    have heff := appendChild_effect d S c R hcOk.2 hRS
    have hInv1 : TreeInv (appendChild d S c) := inv_appendChild d S c hInv hS hcOk.1
    have hsz1 : (appendChild d S c).size = d.size := size_appendChild d S c
    have hR1 : (getN (appendChild d S c) R).childNodes = rest := by
      rw [heff.2.1, hcs]
      have := filter_ne_split [] rest c (by simp) hcrest
      simpa using this
    have hfold : appendChildNodes d S (c :: rest)
        = appendChildNodes (appendChild d S c) S rest := rfl
    have hcR : c ≠ R := fun hc => hRnot (by rw [← hc]; exact List.mem_cons_self c rest)
    have hcS : c ≠ S := fun hc => hSnot (by rw [← hc]; exact List.mem_cons_self c rest)
    obtain ⟨ihInv, ihsz, ihS, ihR, ihCframe, ihPframe, ihDoc⟩ :=
      ih (appendChild d S c) hInv1 (hsz1 ▸ hR) (hsz1 ▸ hS) hR1
        (fun hc => hRnot (List.mem_cons_of_mem c hc))
        (fun hc => hSnot (List.mem_cons_of_mem c hc))
    rw [hfold]
    refine ⟨ihInv, ihsz.trans hsz1, ?_, ihR, ?_, ?_, ?_⟩
    · rw [ihS, heff.1, List.append_assoc]
      rfl
    · intro m hmR hmS
      rw [ihCframe m hmR hmS, heff.2.2.1 m hmR hmS]
    · intro m hm
      have hmc : m ≠ c := fun hc => hm (by rw [hc]; exact List.mem_cons_self c rest)
      have hmrest : m ∉ rest := fun hc => hm (List.mem_cons_of_mem c hc)
      rw [ihPframe m hmrest, heff.2.2.2.2.1 m hmc]
    · intro m
      rw [ihDoc m, heff.2.2.2.2.2 m]

/-- A tree with a parented node 1 (children 2, 3) and a detached node 4
(child 5): swapping 1 for 4 moves the children of 1 onto 4. -/
def cDom2 : Dom :=
  { size := 6
    nodes := fun i =>
      if i = 0 then
        { parentNode := none, prevSibling := none, nextSibling := none,
          childNodes := [1], isDocument := false }
      else if i = 1 then
        { parentNode := some 0, prevSibling := none, nextSibling := none,
          childNodes := [2, 3], isDocument := false }
      else if i = 2 then
        { parentNode := some 1, prevSibling := none, nextSibling := some 3,
          childNodes := [], isDocument := false }
      else if i = 3 then
        { parentNode := some 1, prevSibling := some 2, nextSibling := none,
          childNodes := [], isDocument := false }
      else if i = 4 then
        { parentNode := none, prevSibling := none, nextSibling := none,
          childNodes := [5], isDocument := false }
      else if i = 5 then
        { parentNode := some 4, prevSibling := none, nextSibling := none,
          childNodes := [], isDocument := false }
      else
        { parentNode := none, prevSibling := none, nextSibling := none,
          childNodes := [], isDocument := false } }

/-- C2 counterexample: swapNode does not leave each node's own child list
unchanged.  On cDom2, swapping node 1 (children [2, 3]) for node 4
(children [5]) empties node 1's child list and extends node 4's. -/
theorem swapNode_children_move :
    TreeInv cDom2 ∧
    (getN cDom2 1).childNodes = [2, 3] ∧
    (getN cDom2 4).childNodes = [5] ∧
    ((swapNode cDom2 1 4).toOption.map
        (fun e => ((getN e 1).childNodes, (getN e 4).childNodes)))
      = some ([], [5, 2, 3]) := by
  decide

/-- C2: swapNode does not exchange positions while each node keeps its own
children.  Corrected behaviour: the removed node's children are moved onto
the replacement (appended after its existing children), the removed node is
left detached with an empty child list, and the replacement takes the
removed node's place in its former parent's child list. -/
theorem swapNode_spec (d : Dom) (R S p : Nat) (d' : Dom)
    (hInv : TreeInv d) (hR : R < d.size) (hS : S < d.size) (hRS : R ≠ S)
    (hp : (getN d R).parentNode = some p) (hpR : p ≠ R) (hpS : p ≠ S)
    (hSnotP : S ∉ (getN d p).childNodes)
    (hSnotR : S ∉ (getN d R).childNodes)
    (hSS : S ∉ (getN d S).childNodes)
    (hok : swapNode d R S = Except.ok d') :
    (getN d' S).childNodes = (getN d S).childNodes ++ (getN d R).childNodes ∧
    (getN d' R).childNodes = [] ∧
    (getN d' R).parentNode = none ∧
    (getN d' S).parentNode = some p ∧
    (getN d' p).childNodes
      = ((getN d p).childNodes).map (fun x => if x = R then S else x) := by
  have hRnot : R ∉ (getN d R).childNodes := by
    intro hmem
    have hx := ((hInv R hR).2.1 R hmem).2
    rw [hp] at hx
    exact hpR (Option.some_inj.mp hx)
  obtain ⟨hInv1, hsz1, hS1, hR1, hC1, hP1, hD1⟩ :=
    appendChildNodes_effect S R hRS (getN d R).childNodes d hInv hR hS rfl
      hRnot hSnotR
  set d1 := appendChildNodes d S (getN d R).childNodes with hd1
  have hdfr : (getN d1 R).isDocument = (getN d R).isDocument := hD1 R
  cases hvd : (getN d R).isDocument with
  | true =>
    exfalso
    have hstep : appendSibling d1 S R
        = Except.error "Attempting to append after DocumentNode" := by
      unfold appendSibling
      rw [hdfr, hvd, if_pos rfl]
    have hsw : swapNode d R S
        = Except.error "Attempting to append after DocumentNode" := by
      show ((appendSibling d1 S R).bind fun dx => replaceNodeLoop dx S []).bind
          (fun d2 => Except.ok (detatchNode d2 R))
        = Except.error "Attempting to append after DocumentNode"
      rw [hstep]
      rfl
    rw [hsw] at hok
    exact Except.noConfusion hok
  | false =>
    have hstep : appendSibling d1 S R
        = Except.ok (appendSiblingCore d1 S R) := by
      unfold appendSibling
      rw [hdfr, hvd, if_neg (by simp)]
    have hsw : swapNode d R S
        = Except.ok (detatchNode (appendSiblingCore d1 S R) R) := by
      show ((appendSibling d1 S R).bind fun dx => replaceNodeLoop dx S []).bind
          (fun d2 => Except.ok (detatchNode d2 R))
        = Except.ok (detatchNode (appendSiblingCore d1 S R) R)
      rw [hstep]
      rfl
    rw [hsw] at hok
    have hd' : d' = detatchNode (appendSibRest (detatchNode d1 S) S R) R := by
      rw [← appendSiblingCore_eq]
      exact (Except.ok.inj hok).symm
    -- facts about the heap after the child move and the detatch of S
    have hSpar1 : (getN d1 S).parentNode = (getN d S).parentNode := hP1 S hSnotR
    have hq1 : (getN d S).parentNode ≠ some p := by
      intro hc
      have hpo := (hInv S hS).1
      unfold parentOk at hpo
      rw [hc] at hpo
      exact hSnotP hpo.2
    have hq2 : (getN d S).parentNode ≠ some R := by
      intro hc
      have hpo := (hInv S hS).1
      unfold parentOk at hpo
      rw [hc] at hpo
      exact hSnotR hpo.2
    have hq3 : (getN d S).parentNode ≠ some S := by
      intro hc
      have hpo := (hInv S hS).1
      unfold parentOk at hpo
      rw [hc] at hpo
      exact hSS hpo.2
    have hdet : ∀ m, (getN d S).parentNode ≠ some m →
        (getN (detatchNode d1 S) m).childNodes = (getN d1 m).childNodes := by
      intro m hm
      rw [detatch_childNodes, hSpar1, if_neg hm]
    have hRp2 : (getN (detatchNode d1 S) R).parentNode = some p := by
      rw [detatch_parentNode_frame d1 S R hRS, hP1 R hRnot, hp]
    -- the parent's child list at d and its decomposition around R
    have hpo := (hInv R hR).1
    unfold parentOk at hpo
    rw [hp] at hpo
    obtain ⟨hplt, hmemR⟩ := hpo
    have hndp : ((getN d p).childNodes).Nodup := (hInv p hplt).2.2.1
    obtain ⟨l₁, l₂, hdecomp⟩ := List.append_of_mem hmemR
    have hRl : R ∉ l₁ ∧ R ∉ l₂ := by
      rw [hdecomp] at hndp
      obtain ⟨_, nd2, disj⟩ := List.nodup_append.mp hndp
      exact ⟨fun hc => disj hc (List.mem_cons_self R l₂),
        (List.nodup_cons.mp nd2).1⟩
    have hpch2 : (getN (detatchNode d1 S) p).childNodes
        = (getN d p).childNodes := by
      rw [hdet p hq1, hC1 p hpR hpS]
    -- the heap after the sibling insertion of S next to R
    have hd2p : (getN (appendSibRest (detatchNode d1 S) S R) p).childNodes
        = l₁ ++ R :: S :: l₂ := by
      rw [appendSibRest_childNodes _ S R p hRp2 p, if_pos rfl, hpch2, hdecomp,
        jsIndexOf_append l₁ l₂ R hRl.1, jsSpliceInsert_after]
    have hd2S : (getN (appendSibRest (detatchNode d1 S) S R) S).childNodes
        = (getN d S).childNodes ++ (getN d R).childNodes := by
      rw [appendSibRest_childNodes _ S R p hRp2 S,
        if_neg (fun hc => hpS hc.symm), hdet S hq3, hS1]
    have hd2R : (getN (appendSibRest (detatchNode d1 S) S R) R).childNodes
        = [] := by
      rw [appendSibRest_childNodes _ S R p hRp2 R,
        if_neg (fun hc => hpR hc.symm), hdet R hq2, hR1]
    have hd2Sp : (getN (appendSibRest (detatchNode d1 S) S R) S).parentNode
        = some p := by
      rw [appendSibRest_parentNode _ S R p hRp2 S, if_pos rfl]
    have hd2Rp : (getN (appendSibRest (detatchNode d1 S) S R) R).parentNode
        = some p := by
      rw [appendSibRest_parentNode _ S R p hRp2 R, if_neg hRS, hRp2]
    -- the final detatch of R
    rw [hd']
    refine ⟨?_, ?_, ?_, ?_, ?_⟩
    · rw [detatch_childNodes, hd2Rp,
        if_neg (fun hc => hpS (Option.some_inj.mp hc))]
      exact hd2S
    · rw [detatch_childNodes, hd2Rp,
        if_neg (fun hc => hpR (Option.some_inj.mp hc))]
      exact hd2R
    · exact (detatch_self_links _ R).1
    · rw [detatch_parentNode_frame _ R S hRS.symm]
      exact hd2Sp
    · rw [detatch_childNodes, hd2Rp, if_pos rfl, hd2p,
        filter_ne_split l₁ (S :: l₂) R hRl.1 (by simp [hRS, hRl.2]),
        hdecomp, map_replace l₁ l₂ R S hRl.1 hRl.2]

/-- The heap produced by swapNode cDom2 1 4, written out as the underlying
composition of primitives. -/
def swapOut : Dom :=
  detatchNode (appendSiblingCore
    (appendChildNodes cDom2 4 (getN cDom2 1).childNodes) 4 1) 1

theorem swapNode_spec_witness :
    (getN swapOut 4).childNodes
        = (getN cDom2 4).childNodes ++ (getN cDom2 1).childNodes ∧
    (getN swapOut 1).childNodes = [] ∧
    (getN swapOut 1).parentNode = none ∧
    (getN swapOut 4).parentNode = some 0 ∧
    (getN swapOut 0).childNodes
        = ((getN cDom2 0).childNodes).map (fun x => if x = 1 then 4 else x) :=
  swapNode_spec cDom2 1 4 0 swapOut (by decide) (by decide) (by decide)
    (by decide) (by decide) (by decide) (by decide) (by decide) (by decide)
    (by decide) rfl

/-! PipelineCache (source: src/lib/pipeline/pipelineCache.ts).  The four
JavaScript Maps are modelled as association lists where a `set` prepends
and lookup takes the first match, which reproduces Map.get / Map.has /
Map.set observational behaviour (the code never iterates the maps).  The
value types are abstract since the cache never inspects them; storePage,
storeFragment and storeComponent key by the value's resId field, passed
here as an explicit function. -/

structure PipelineCache (Page Fragment Component EvalContent : Type) : Type where
  pageCache : List (String × Page)
  fragmentCache : List (String × Fragment)
  componentCache : List (String × Component)
  scriptTextCache : List (String × EvalContent)

def hasPage {P F C E : Type} (c : PipelineCache P F C E) (resId : String) : Bool :=
  (c.pageCache.lookup resId).isSome

def getPage {P F C E : Type} (c : PipelineCache P F C E) (resId : String) :
    Except String P :=
  match c.pageCache.lookup resId with
  | some page => Except.ok page
  | none => Except.error ("Page not found in cache: " ++ resId
      ++ ".  Make sure to call hasPage() before getPage().")

def storePage {P F C E : Type} (resIdOf : P → String)
    (c : PipelineCache P F C E) (page : P) : PipelineCache P F C E :=
  { c with pageCache := (resIdOf page, page) :: c.pageCache }

def hasFragment {P F C E : Type} (c : PipelineCache P F C E) (resId : String) :
    Bool :=
  (c.fragmentCache.lookup resId).isSome

def getFragment {P F C E : Type} (c : PipelineCache P F C E) (resId : String) :
    Except String F :=
  match c.fragmentCache.lookup resId with
  | some fragment => Except.ok fragment
  | none => Except.error ("Fragment not found in cache: " ++ resId
      ++ ".  Make sure to call hasFragment() before getFragment().")

def storeFragment {P F C E : Type} (resIdOf : F → String)
    (c : PipelineCache P F C E) (fragment : F) : PipelineCache P F C E :=
  { c with fragmentCache := (resIdOf fragment, fragment) :: c.fragmentCache }

def hasComponent {P F C E : Type} (c : PipelineCache P F C E) (resId : String) :
    Bool :=
  (c.componentCache.lookup resId).isSome

def getComponent {P F C E : Type} (c : PipelineCache P F C E) (resId : String) :
    Except String C :=
  match c.componentCache.lookup resId with
  | some component => Except.ok component
  | none => Except.error ("Component not found in cache: " ++ resId
      ++ ".  Make sure to call hasComponent() before getComponent().")

def storeComponent {P F C E : Type} (resIdOf : C → String)
    (c : PipelineCache P F C E) (component : C) : PipelineCache P F C E :=
  { c with componentCache := (resIdOf component, component) :: c.componentCache }

def hasScriptText {P F C E : Type} (c : PipelineCache P F C E)
    (signature : String) : Bool :=
  (c.scriptTextCache.lookup signature).isSome

def getScriptText {P F C E : Type} (c : PipelineCache P F C E)
    (signature : String) : Except String E :=
  match c.scriptTextCache.lookup signature with
  | some templateFunc => Except.ok templateFunc
  | none => Except.error ("Script text function not found in cache: " ++ signature
      ++ ".  Make sure to call hasScriptText() before getScriptText().")

def storeScriptText {P F C E : Type} (c : PipelineCache P F C E)
    (signature : String) (templateFunc : E) : PipelineCache P F C E :=
  { c with scriptTextCache := (signature, templateFunc) :: c.scriptTextCache }

theorem lookup_cons_eq {V : Type} (l : List (String × V)) (a k : String) (v : V) :
    ((a, v) :: l).lookup k = if k = a then some v else l.lookup k := by
  by_cases h : k = a
  · simp [List.lookup, h]
  · simp only [List.lookup, beq_false_of_ne h, if_neg h]

/-- C7: the PipelineCache lookup contract.  has* is a total Boolean
predicate (it cannot raise); get* returns the cache-miss error exactly when
the key is absent (so it never raises when has* is true); and get* right
after a store returns the stored value at the stored key and is unchanged
elsewhere, so a present key maps to its most recently stored value. -/
theorem pipelineCache_lookup_contract {P F C E : Type}
    (resIdP : P → String) (resIdF : F → String) (resIdC : C → String)
    (c : PipelineCache P F C E) (k : String) :
    (isErr (getPage c k) = true ↔ hasPage c k = false) ∧
    (∀ v : P, getPage (storePage resIdP c v) k
        = if k = resIdP v then Except.ok v else getPage c k) ∧
    (isErr (getFragment c k) = true ↔ hasFragment c k = false) ∧
    (∀ v : F, getFragment (storeFragment resIdF c v) k
        = if k = resIdF v then Except.ok v else getFragment c k) ∧
    (isErr (getComponent c k) = true ↔ hasComponent c k = false) ∧
    (∀ v : C, getComponent (storeComponent resIdC c v) k
        = if k = resIdC v then Except.ok v else getComponent c k) ∧
    (isErr (getScriptText c k) = true ↔ hasScriptText c k = false) ∧
    (∀ (sig : String) (v : E), getScriptText (storeScriptText c sig v) k
        = if k = sig then Except.ok v else getScriptText c k) := by
  refine ⟨?_, ?_, ?_, ?_, ?_, ?_, ?_, ?_⟩
  · unfold isErr getPage hasPage
    cases h : c.pageCache.lookup k <;> simp [h]
  · intro v
    unfold getPage storePage
    dsimp only
    rw [lookup_cons_eq]
    by_cases h : k = resIdP v
    · simp [h]
    · simp [h]
  · unfold isErr getFragment hasFragment
    cases h : c.fragmentCache.lookup k <;> simp [h]
  · intro v
    unfold getFragment storeFragment
    dsimp only
    rw [lookup_cons_eq]
    by_cases h : k = resIdF v
    · simp [h]
    · simp [h]
  · unfold isErr getComponent hasComponent
    cases h : c.componentCache.lookup k <;> simp [h]
  · intro v
    unfold getComponent storeComponent
    dsimp only
    rw [lookup_cons_eq]
    by_cases h : k = resIdC v
    · simp [h]
    · simp [h]
  · unfold isErr getScriptText hasScriptText
    cases h : c.scriptTextCache.lookup k <;> simp [h]
  · intro sig v
    unfold getScriptText storeScriptText
    dsimp only
    rw [lookup_cons_eq]
    by_cases h : k = sig
    · simp [h]
    · simp [h]

/-! linkResource (source: src/unnamed/part_000, StandardPipeline).  The
created-resource cache object (hasCreatedResource / getCreatedResource /
storeCreatedResource) is not part of the available sources; modelled from
the spec as a map from content hash to output path.  The pipeline
interface backend (createResource, optional reLinkCreatedResource) and the
overridable fastHashContent are pure parameters; createLog records each
invocation of the backend createResource callback, in order, so that call
counts are observable. -/

inductive ResourceType : Type where
  | html : ResourceType
  | css : ResourceType
  | javascript : ResourceType
deriving DecidableEq, Repr

structure LinkState : Type where
  createdResourceCache : List (String × String)
  createLog : List (ResourceType × String × String)
deriving DecidableEq, Repr

def linkResource (fastHashContent : String → String)
    (createResource : ResourceType → String → String → String)
    (reLinkCreatedResource : Option (ResourceType → String → String → String → String))
    (st : LinkState) (type : ResourceType) (contents sourceResPath : String) :
    String × LinkState :=
  let contentsHash := fastHashContent contents
  match st.createdResourceCache.lookup contentsHash with
  | some originalResPath =>
    match reLinkCreatedResource with
    | some reLink => (reLink type contents sourceResPath originalResPath, st)
    | none => (originalResPath, st)
  | none =>
    let resPath := createResource type contents sourceResPath
    (resPath,
     { createdResourceCache := (contentsHash, resPath) :: st.createdResourceCache,
       createLog := st.createLog ++ [(type, contents, sourceResPath)] })

theorem linkResource_miss (hash : String → String)
    (create : ResourceType → String → String → String)
    (reLink : Option (ResourceType → String → String → String → String))
    (st : LinkState) (t : ResourceType) (c sp : String)
    (hfresh : st.createdResourceCache.lookup (hash c) = none) :
    linkResource hash create reLink st t c sp
      = (create t c sp,
         { createdResourceCache := (hash c, create t c sp) :: st.createdResourceCache,
           createLog := st.createLog ++ [(t, c, sp)] }) := by
  unfold linkResource
  dsimp only
  rw [hfresh]

theorem linkResource_hit (hash : String → String)
    (create : ResourceType → String → String → String)
    (st : LinkState) (t : ResourceType) (c sp p : String)
    (hhit : st.createdResourceCache.lookup (hash c) = some p) :
    linkResource hash create none st t c sp = (p, st) := by
  unfold linkResource
  dsimp only
  rw [hhit]

/-- C8: with no reLinkCreatedResource on the backend, linking the same
contents twice returns the path of the first call and invokes the backend
createResource exactly once (one log entry across both calls); linking
contents with differing hashes invokes createResource once per content and
returns the backend-assigned paths, distinct whenever the backend assigns
distinct paths. -/
theorem linkResource_dedup
    (hash : String → String) (create : ResourceType → String → String → String)
    (st : LinkState) (t : ResourceType) (c sp : String)
    (t1 t2 : ResourceType) (c1 c2 sp1 sp2 : String)
    (hfresh : st.createdResourceCache.lookup (hash c) = none)
    (hfresh1 : st.createdResourceCache.lookup (hash c1) = none)
    (hfresh2 : st.createdResourceCache.lookup (hash c2) = none)
    (hne : hash c1 ≠ hash c2) :
    ((linkResource hash create none
        (linkResource hash create none st t c sp).2 t c sp).1
      = (linkResource hash create none st t c sp).1 ∧
     (linkResource hash create none
        (linkResource hash create none st t c sp).2 t c sp).2
      = (linkResource hash create none st t c sp).2 ∧
     (linkResource hash create none st t c sp).2.createLog
      = st.createLog ++ [(t, c, sp)]) ∧
    ((linkResource hash create none st t1 c1 sp1).1 = create t1 c1 sp1 ∧
     (linkResource hash create none
        (linkResource hash create none st t1 c1 sp1).2 t2 c2 sp2).1
      = create t2 c2 sp2 ∧
     (linkResource hash create none
        (linkResource hash create none st t1 c1 sp1).2 t2 c2 sp2).2.createLog
      = st.createLog ++ [(t1, c1, sp1), (t2, c2, sp2)] ∧
     (create t1 c1 sp1 ≠ create t2 c2 sp2 →
       (linkResource hash create none st t1 c1 sp1).1
         ≠ (linkResource hash create none
             (linkResource hash create none st t1 c1 sp1).2 t2 c2 sp2).1)) := by
  have h1 := linkResource_miss hash create none st t c sp hfresh
  have hq1 := linkResource_miss hash create none st t1 c1 sp1 hfresh1
  constructor
  · rw [h1]
    dsimp only
    have h2 := linkResource_hit hash create
      { createdResourceCache := (hash c, create t c sp) :: st.createdResourceCache,
        createLog := st.createLog ++ [(t, c, sp)] } t c sp (create t c sp)
      (by dsimp only; rw [lookup_cons_eq, if_pos rfl])
    rw [h2]
    exact ⟨rfl, rfl, rfl⟩
  · rw [hq1]
    dsimp only
    have hq2 := linkResource_miss hash create none
      { createdResourceCache := (hash c1, create t1 c1 sp1) :: st.createdResourceCache,
        createLog := st.createLog ++ [(t1, c1, sp1)] } t2 c2 sp2
      (by dsimp only; rw [lookup_cons_eq, if_neg (fun hc => hne hc.symm), hfresh2])
    rw [hq2]
    dsimp only
    refine ⟨rfl, rfl, by rw [List.append_assoc]; rfl, fun hd => hd⟩

theorem linkResource_dedup_witness :
    ((linkResource id (fun _ c sp => c ++ sp) none
        (linkResource id (fun _ c sp => c ++ sp) none ⟨[], []⟩
          ResourceType.css "a" "s").2 ResourceType.css "a" "s").1
      = (linkResource id (fun _ c sp => c ++ sp) none ⟨[], []⟩
          ResourceType.css "a" "s").1 ∧
     (linkResource id (fun _ c sp => c ++ sp) none ⟨[], []⟩
        ResourceType.css "a" "s").2.createLog
      = [(ResourceType.css, "a", "s")]) ∧
    (linkResource id (fun _ c sp => c ++ sp) none ⟨[], []⟩
        ResourceType.html "b" "s").1 = "bs" := by
  have h := linkResource_dedup id (fun _ c sp => c ++ sp) ⟨[], []⟩
    ResourceType.css "a" "s" ResourceType.html ResourceType.html "b" "d" "s" "s"
    (by decide) (by decide) (by decide) (by decide)
  exact ⟨⟨h.1.1, h.1.2.2⟩, h.2.1⟩

/-- C10: the created-resource cache is keyed by the content hash alone.
With no reLinkCreatedResource on the backend, a second linkResource call
with the same contents but a different resource type and different source
path still returns the path assigned by the first call and leaves the
state unchanged (no further createResource invocation). -/
theorem linkResource_cache_ignores_type_and_source
    (hash : String → String) (create : ResourceType → String → String → String)
    (st : LinkState) (t1 t2 : ResourceType) (c sp1 sp2 : String)
    (hfresh : st.createdResourceCache.lookup (hash c) = none) :
    (linkResource hash create none
       (linkResource hash create none st t1 c sp1).2 t2 c sp2).1
      = (linkResource hash create none st t1 c sp1).1 ∧
    (linkResource hash create none
       (linkResource hash create none st t1 c sp1).2 t2 c sp2).2
      = (linkResource hash create none st t1 c sp1).2 := by
  have h1 := linkResource_miss hash create none st t1 c sp1 hfresh
  rw [h1]
  dsimp only
  have h2 := linkResource_hit hash create
    { createdResourceCache := (hash c, create t1 c sp1) :: st.createdResourceCache,
      createLog := st.createLog ++ [(t1, c, sp1)] } t2 c sp2 (create t1 c sp1)
    (by dsimp only; rw [lookup_cons_eq, if_pos rfl])
  rw [h2]
  exact ⟨rfl, rfl⟩

theorem linkResource_cache_ignores_type_and_source_witness :
    (linkResource id (fun _ c sp => c ++ sp) none
       (linkResource id (fun _ c sp => c ++ sp) none ⟨[], []⟩
         ResourceType.html "a" "s1").2 ResourceType.css "a" "s2").1
      = (linkResource id (fun _ c sp => c ++ sp) none ⟨[], []⟩
          ResourceType.html "a" "s1").1 ∧
    (linkResource id (fun _ c sp => c ++ sp) none
       (linkResource id (fun _ c sp => c ++ sp) none ⟨[], []⟩
         ResourceType.html "a" "s1").2 ResourceType.css "a" "s2").2
      = (linkResource id (fun _ c sp => c ++ sp) none ⟨[], []⟩
          ResourceType.html "a" "s1").2 :=
  linkResource_cache_ignores_type_and_source id (fun _ c sp => c ++ sp) ⟨[], []⟩
    ResourceType.html ResourceType.css "a" "s1" "s2" (by decide)

/-! compileExpression (source: src/unnamed/part_000, StandardPipeline) and
getOrParseExpression.  The evalEngine module (isExpressionString,
parseExpression, EvalContext, EvalContent) is not part of the available
sources; modelled from the spec with the classifier and the parser as pure
parameters, an EvalContent as a function from the evaluation context to a
value, and invoke as application.  The expression cache is the same
first-match association-list model of a Map used above. -/

def getOrParseExpression {Ctx V : Type}
    (parseExpression : String → Ctx → V)
    (cache : List (String × (Ctx → V))) (expression : String) :
    (Ctx → V) × List (String × (Ctx → V)) :=
  match cache.lookup expression with
  | some expressionFunc => (expressionFunc, cache)
  | none =>
    let expressionFunc := parseExpression expression
    (expressionFunc, (expression, expressionFunc) :: cache)

def compileExpression {Ctx V : Type}
    (isExpressionString : String → Bool)
    (parseExpression : String → Ctx → V) (ofString : String → V)
    (cache : List (String × (Ctx → V))) (value : String) (evalContext : Ctx) :
    V × List (String × (Ctx → V)) :=
  if isExpressionString value then
    let expression := value.trim
    let r := getOrParseExpression parseExpression cache expression
    (r.1 evalContext, r.2)
  else
    (ofString value, cache)

theorem lookup_mem {V : Type} : ∀ (l : List (String × V)) (k : String) (v : V),
    l.lookup k = some v → (k, v) ∈ l := by
  intro l
  induction l with
  | nil => intro k v h; simp [List.lookup] at h
  | cons a t ih =>
    intro k v h
    obtain ⟨a1, a2⟩ := a
    rw [lookup_cons_eq] at h
    by_cases hk : k = a1
    · rw [if_pos hk] at h
      subst hk
      exact (Option.some_inj.mp h) ▸ List.mem_cons_self (k, a2) t
    · rw [if_neg hk] at h
      exact List.mem_cons_of_mem _ (ih k v h)

/-- C9: when the classifier rejects the input, compileExpression returns
the input string unchanged with the cache untouched (so nothing is parsed
or invoked, whatever the parser and context are); when it accepts,
compileExpression returns the result of invoking the compiled expression
unit for the trimmed text against the given context, provided every cached
unit is the parse of its key. -/
theorem compileExpression_spec {Ctx V : Type}
    (isExprStr : String → Bool) (pe : String → Ctx → V) (ofString : String → V)
    (cache : List (String × (Ctx → V))) (value : String) (ctx : Ctx) :
    (isExprStr value = false →
      compileExpression isExprStr pe ofString cache value ctx
        = (ofString value, cache)) ∧
    (isExprStr value = true →
      (∀ k f, (k, f) ∈ cache → f = pe k) →
      (compileExpression isExprStr pe ofString cache value ctx).1
        = pe value.trim ctx) := by
  constructor
  · intro hno
    unfold compileExpression
    rw [hno]
    rfl
  · intro hyes hwf
    unfold compileExpression
    rw [hyes]
    dsimp only [if_pos]
    unfold getOrParseExpression
    cases hl : cache.lookup value.trim with
    | none => rfl
    | some f =>
      dsimp only
      rw [hwf value.trim f (lookup_mem cache value.trim f hl)]
      rfl

theorem compileExpression_spec_witness :
    compileExpression (fun s => !s.isEmpty) (fun k _ => k) id
        ([] : List (String × (Nat → String))) "" 0 = ("", []) ∧
    (compileExpression (fun s => !s.isEmpty) (fun k _ => k) id
        ([] : List (String × (Nat → String))) "e" 0).1 = "e".trim :=
  ⟨(compileExpression_spec (fun s => !s.isEmpty) (fun k _ => k) id [] "" 0).1 rfl,
   (compileExpression_spec (fun s => !s.isEmpty) (fun k _ => k) id [] "e" 0).2 rfl
     (fun _ _ hk => absurd hk (List.not_mem_nil _))⟩

/-! getOrParseFragment (source: src/unnamed/part_000, StandardPipeline)
and the node clone functions (source: src/lib/pipeline/pipelineCache.ts,
cloneDocumentNode / cloneTagNode / cloneTextNode / cloneChildNodes with
deep = true).  JavaScript object identity is modelled by a numeric id
carried by every node; `new` allocations take ids from a monotone counter,
so a deep clone rebuilds the same shape and content with fresh ids.  The
resource parser is a pure parameter producing a fragment from a path and
the allocation counter.  mutateById rewrites the tag name or text of the
node with a given identity: it stands for an in-place mutation reached
through a node reference, and it is the identity on trees that do not
contain that id. -/

mutual

inductive DomNode : Type where
  | doc : Nat → DomForest → DomNode
  | tag : Nat → String → DomForest → DomNode
  | text : Nat → String → DomNode

inductive DomForest : Type where
  | nil : DomForest
  | cons : DomNode → DomForest → DomForest

end

mutual

def cloneNode : DomNode → Nat → DomNode × Nat
  | DomNode.doc _ cs, n =>
    let r := cloneForest cs (n + 1)
    (DomNode.doc n r.1, r.2)
  | DomNode.tag _ tagName cs, n =>
    let r := cloneForest cs (n + 1)
    (DomNode.tag n tagName r.1, r.2)
  | DomNode.text _ s, n => (DomNode.text n s, n + 1)

def cloneForest : DomForest → Nat → DomForest × Nat
  | DomForest.nil, n => (DomForest.nil, n)
  | DomForest.cons h t, n =>
    let rh := cloneNode h n
    let rt := cloneForest t rh.2
    (DomForest.cons rh.1 rt.1, rt.2)

end

mutual

def ids : DomNode → List Nat
  | DomNode.doc i cs => i :: idsF cs
  | DomNode.tag i _ cs => i :: idsF cs
  | DomNode.text i _ => [i]

def idsF : DomForest → List Nat
  | DomForest.nil => []
  | DomForest.cons h t => ids h ++ idsF t

end

mutual

def strip : DomNode → DomNode
  | DomNode.doc _ cs => DomNode.doc 0 (stripF cs)
  | DomNode.tag _ tagName cs => DomNode.tag 0 tagName (stripF cs)
  | DomNode.text _ s => DomNode.text 0 s

def stripF : DomForest → DomForest
  | DomForest.nil => DomForest.nil
  | DomForest.cons h t => DomForest.cons (strip h) (stripF t)

end

mutual

def mutateById (g : String → String) : DomNode → Nat → DomNode
  | DomNode.doc j cs, i => DomNode.doc j (mutateByIdF g cs i)
  | DomNode.tag j tagName cs, i =>
    DomNode.tag j (if j = i then g tagName else tagName) (mutateByIdF g cs i)
  | DomNode.text j s, i => DomNode.text j (if j = i then g s else s)

def mutateByIdF (g : String → String) : DomForest → Nat → DomForest
  | DomForest.nil, _ => DomForest.nil
  | DomForest.cons h t, i =>
    DomForest.cons (mutateById g h i) (mutateByIdF g t i)

end

structure Fragment : Type where
  path : String
  dom : DomNode

structure PipeState : Type where
  fragmentCache : List (String × Fragment)
  nextId : Nat

def getOrParseFragment (parse : String → Nat → Fragment × Nat)
    (st : PipeState) (resPath : String) : Fragment × PipeState :=
  match st.fragmentCache.lookup resPath with
  | some fragment =>
    let r := cloneNode fragment.dom st.nextId
    ({ path := fragment.path, dom := r.1 }, { st with nextId := r.2 })
  | none =>
    let pr := parse resPath st.nextId
    let parsedFragment := pr.1
    let st1 : PipeState :=
      { fragmentCache := (parsedFragment.path, parsedFragment) :: st.fragmentCache,
        nextId := pr.2 }
    let r := cloneNode parsedFragment.dom st1.nextId
    ({ path := parsedFragment.path, dom := r.1 }, { st1 with nextId := r.2 })

/-- The master tree for a path: the cached fragment when present,
otherwise the fragment that parsing will produce and cache. -/
def masterOf (parse : String → Nat → Fragment × Nat) (st : PipeState)
    (resPath : String) : Fragment :=
  match st.fragmentCache.lookup resPath with
  | some fragment => fragment
  | none => (parse resPath st.nextId).1

mutual

theorem cloneNode_le : ∀ (t : DomNode) (n : Nat), n ≤ (cloneNode t n).2
  | DomNode.doc _ cs, n => by
    have h := cloneForest_le cs (n + 1)
    simp only [cloneNode]
    omega
  | DomNode.tag _ tagName cs, n => by
    have h := cloneForest_le cs (n + 1)
    simp only [cloneNode]
    omega
  | DomNode.text _ s, n => by
    simp only [cloneNode]
    omega

theorem cloneForest_le : ∀ (f : DomForest) (n : Nat), n ≤ (cloneForest f n).2
  | DomForest.nil, n => by
    simp only [cloneForest]
    omega
  | DomForest.cons h t, n => by
    have h1 := cloneNode_le h n
    have h2 := cloneForest_le t (cloneNode h n).2
    simp only [cloneForest]
    omega

end

mutual

theorem cloneNode_ids_bound : ∀ (t : DomNode) (n i : Nat),
    i ∈ ids (cloneNode t n).1 → n ≤ i ∧ i < (cloneNode t n).2
  | DomNode.doc _ cs, n, i => by
    have h := cloneForest_ids_bound cs (n + 1) i
    have hle := cloneForest_le cs (n + 1)
    simp only [cloneNode, ids]
    intro hmem
    rcases List.mem_cons.mp hmem with he | hm
    · omega
    · have := h hm
      omega
  | DomNode.tag _ tagName cs, n, i => by
    have h := cloneForest_ids_bound cs (n + 1) i
    have hle := cloneForest_le cs (n + 1)
    simp only [cloneNode, ids]
    intro hmem
    rcases List.mem_cons.mp hmem with he | hm
    · omega
    · have := h hm
      omega
  | DomNode.text _ s, n, i => by
    simp only [cloneNode, ids]
    intro hmem
    rcases List.mem_cons.mp hmem with he | hm
    · omega
    · exact absurd hm (List.not_mem_nil i)

theorem cloneForest_ids_bound : ∀ (f : DomForest) (n i : Nat),
    i ∈ idsF (cloneForest f n).1 → n ≤ i ∧ i < (cloneForest f n).2
  | DomForest.nil, n, i => by
    simp only [cloneForest, idsF]
    intro hmem
    exact absurd hmem (List.not_mem_nil i)
  | DomForest.cons h t, n, i => by
    have h1 := cloneNode_ids_bound h n i
    have h2 := cloneForest_ids_bound t (cloneNode h n).2 i
    have hle1 := cloneNode_le h n
    have hle2 := cloneForest_le t (cloneNode h n).2
    simp only [cloneForest, idsF]
    intro hmem
    rcases List.mem_append.mp hmem with hm | hm
    · have := h1 hm
      omega
    · have := h2 hm
      omega

end

mutual

theorem cloneNode_strip : ∀ (t : DomNode) (n : Nat),
    strip (cloneNode t n).1 = strip t
  | DomNode.doc _ cs, n => by
    have h := cloneForest_strip cs (n + 1)
    simp only [cloneNode, strip]
    rw [h]
  | DomNode.tag _ tagName cs, n => by
    have h := cloneForest_strip cs (n + 1)
    simp only [cloneNode, strip]
    rw [h]
  | DomNode.text _ s, n => by
    simp only [cloneNode, strip]

theorem cloneForest_strip : ∀ (f : DomForest) (n : Nat),
    stripF (cloneForest f n).1 = stripF f
  | DomForest.nil, n => by
    simp only [cloneForest, stripF]
  | DomForest.cons h t, n => by
    have h1 := cloneNode_strip h n
    have h2 := cloneForest_strip t (cloneNode h n).2
    simp only [cloneForest, stripF]
    rw [h1, h2]

end

mutual

theorem mutateById_not_mem : ∀ (g : String → String) (t : DomNode) (i : Nat),
    i ∉ ids t → mutateById g t i = t
  | g, DomNode.doc j cs, i => by
    intro hni
    simp only [ids] at hni
    have h := mutateByIdF_not_mem g cs i (fun hc => hni (List.mem_cons_of_mem j hc))
    simp only [mutateById]
    rw [h]
  | g, DomNode.tag j tagName cs, i => by
    intro hni
    simp only [ids] at hni
    have h := mutateByIdF_not_mem g cs i (fun hc => hni (List.mem_cons_of_mem j hc))
    have hji : j ≠ i := fun hc => hni (by rw [hc]; exact List.mem_cons_self i (idsF cs))
    simp only [mutateById]
    rw [h, if_neg hji]
  | g, DomNode.text j s, i => by
    intro hni
    simp only [ids] at hni
    have hji : j ≠ i := fun hc => hni (by rw [hc]; exact List.mem_cons_self i [])
    simp only [mutateById]
    rw [if_neg hji]

theorem mutateByIdF_not_mem : ∀ (g : String → String) (f : DomForest) (i : Nat),
    i ∉ idsF f → mutateByIdF g f i = f
  | g, DomForest.nil, i => by
    intro hni
    simp only [mutateByIdF]
  | g, DomForest.cons h t, i => by
    intro hni
    simp only [idsF] at hni
    have h1 := mutateById_not_mem g h i
      (fun hc => hni (List.mem_append.mpr (Or.inl hc)))
    have h2 := mutateByIdF_not_mem g t i
      (fun hc => hni (List.mem_append.mpr (Or.inr hc)))
    simp only [mutateByIdF]
    rw [h1, h2]

end

theorem ids_ne_nil (t : DomNode) : ids t ≠ [] := by
  cases t <;> simp [ids]

theorem clone_pair_disjoint (t : DomNode) (B n : Nat)
    (hB : ∀ i, i ∈ ids t → i < B) (hn : B ≤ n) :
    strip (cloneNode t n).1 = strip t ∧
    strip (cloneNode t (cloneNode t n).2).1 = strip t ∧
    (∀ i, i ∈ ids (cloneNode t n).1 → i ∉ ids t) ∧
    (∀ i, i ∈ ids (cloneNode t (cloneNode t n).2).1 → i ∉ ids t) ∧
    (∀ i, i ∈ ids (cloneNode t n).1 →
      i ∉ ids (cloneNode t (cloneNode t n).2).1) ∧
    (cloneNode t n).1 ≠ (cloneNode t (cloneNode t n).2).1 ∧
    (∀ i g, i ∈ ids (cloneNode t n).1 → mutateById g t i = t) ∧
    (∀ i g, i ∈ ids (cloneNode t (cloneNode t n).2).1 → mutateById g t i = t) := by
  have hnm1 : ∀ i, i ∈ ids (cloneNode t n).1 → i ∉ ids t := by
    intro i hi hit
    have h1 := cloneNode_ids_bound t n i hi
    have h2 := hB i hit
    omega
  have hnm2 : ∀ i, i ∈ ids (cloneNode t (cloneNode t n).2).1 → i ∉ ids t := by
    intro i hi hit
    have h1 := cloneNode_ids_bound t (cloneNode t n).2 i hi
    have h2 := hB i hit
    have h3 := cloneNode_le t n
    omega
  have hnm12 : ∀ i, i ∈ ids (cloneNode t n).1 →
      i ∉ ids (cloneNode t (cloneNode t n).2).1 := by
    intro i hi hi2
    have h1 := cloneNode_ids_bound t n i hi
    have h2 := cloneNode_ids_bound t (cloneNode t n).2 i hi2
    omega
  have hne : (cloneNode t n).1 ≠ (cloneNode t (cloneNode t n).2).1 := by
    intro hc
    cases hids : ids (cloneNode t n).1 with
    | nil => exact ids_ne_nil _ hids
    | cons a l =>
      have ha : a ∈ ids (cloneNode t n).1 := by
        rw [hids]
        exact List.mem_cons_self a l
      exact hnm12 a ha (hc ▸ ha)
  exact ⟨cloneNode_strip t n, cloneNode_strip t _, hnm1, hnm2, hnm12, hne,
    fun i g hi => mutateById_not_mem g t i (hnm1 i hi),
    fun i g hi => mutateById_not_mem g t i (hnm2 i hi)⟩

/-- C1: getOrParseFragment always returns a deep clone of the cached
master tree: the returned dom shares no node identity with the master (so
an id-addressed mutation of the returned tree is a no-op on the master),
two calls for the same path return two distinct doms that share no node
identity with each other, and both returned fragments carry the master's
path and a dom identical to the master's up to node identity. -/
theorem getOrParseFragment_clone_spec
    (parse : String → Nat → Fragment × Nat) (st : PipeState) (resPath : String)
    (hpath : ∀ s n, ((parse s n).1).path = s)
    (hfresh : ∀ s n, (∀ i, i ∈ ids ((parse s n).1).dom → i < (parse s n).2)
      ∧ n ≤ (parse s n).2)
    (hWF : ∀ k f, (k, f) ∈ st.fragmentCache → ∀ i, i ∈ ids f.dom → i < st.nextId) :
    ((getOrParseFragment parse st resPath).2).fragmentCache.lookup resPath
      = some (masterOf parse st resPath) ∧
    ((getOrParseFragment parse (getOrParseFragment parse st resPath).2
        resPath).2).fragmentCache
      = ((getOrParseFragment parse st resPath).2).fragmentCache ∧
    ((getOrParseFragment parse st resPath).1).path
      = (masterOf parse st resPath).path ∧
    ((getOrParseFragment parse (getOrParseFragment parse st resPath).2
        resPath).1).path
      = (masterOf parse st resPath).path ∧
    strip ((getOrParseFragment parse st resPath).1).dom
      = strip (masterOf parse st resPath).dom ∧
    strip ((getOrParseFragment parse (getOrParseFragment parse st resPath).2
        resPath).1).dom
      = strip (masterOf parse st resPath).dom ∧
    (∀ i, i ∈ ids ((getOrParseFragment parse st resPath).1).dom →
      i ∉ ids (masterOf parse st resPath).dom) ∧
    (∀ i, i ∈ ids ((getOrParseFragment parse
        (getOrParseFragment parse st resPath).2 resPath).1).dom →
      i ∉ ids (masterOf parse st resPath).dom) ∧
    (∀ i, i ∈ ids ((getOrParseFragment parse st resPath).1).dom →
      i ∉ ids ((getOrParseFragment parse
        (getOrParseFragment parse st resPath).2 resPath).1).dom) ∧
    ((getOrParseFragment parse st resPath).1).dom
      ≠ ((getOrParseFragment parse
          (getOrParseFragment parse st resPath).2 resPath).1).dom ∧
    (∀ i g, i ∈ ids ((getOrParseFragment parse st resPath).1).dom →
      mutateById g (masterOf parse st resPath).dom i
        = (masterOf parse st resPath).dom) ∧
    (∀ i g, i ∈ ids ((getOrParseFragment parse
        (getOrParseFragment parse st resPath).2 resPath).1).dom →
      mutateById g (masterOf parse st resPath).dom i
        = (masterOf parse st resPath).dom) := by
  cases h0 : st.fragmentCache.lookup resPath with
  | some frag =>
    have e1 : getOrParseFragment parse st resPath
        = ({ path := frag.path, dom := (cloneNode frag.dom st.nextId).1 },
           { fragmentCache := st.fragmentCache,
             nextId := (cloneNode frag.dom st.nextId).2 }) := by
      unfold getOrParseFragment
      rw [h0]
    have eM : masterOf parse st resPath = frag := by
      unfold masterOf
      rw [h0]
    have e2 : getOrParseFragment parse
          { fragmentCache := st.fragmentCache,
            nextId := (cloneNode frag.dom st.nextId).2 } resPath
        = ({ path := frag.path,
             dom := (cloneNode frag.dom (cloneNode frag.dom st.nextId).2).1 },
           { fragmentCache := st.fragmentCache,
             nextId := (cloneNode frag.dom (cloneNode frag.dom st.nextId).2).2 }) := by
      unfold getOrParseFragment
      dsimp only
      rw [h0]
    have hB : ∀ i, i ∈ ids frag.dom → i < st.nextId :=
      hWF resPath frag (lookup_mem st.fragmentCache resPath frag h0)
    obtain ⟨hs1, hs2, hn1, hn2, hn12, hne, hm1, hm2⟩ :=
      clone_pair_disjoint frag.dom st.nextId st.nextId hB le_rfl
    rw [e1, eM]
    dsimp only
    rw [e2]
    dsimp only
    exact ⟨h0, rfl, rfl, rfl, hs1, hs2, hn1, hn2, hn12, hne, hm1, hm2⟩
  | none =>
    have e1 : getOrParseFragment parse st resPath
        = ({ path := ((parse resPath st.nextId).1).path,
             dom := (cloneNode ((parse resPath st.nextId).1).dom
               (parse resPath st.nextId).2).1 },
           { fragmentCache := (((parse resPath st.nextId).1).path,
               (parse resPath st.nextId).1) :: st.fragmentCache,
             nextId := (cloneNode ((parse resPath st.nextId).1).dom
               (parse resPath st.nextId).2).2 }) := by
      unfold getOrParseFragment
      rw [h0]
    have eM : masterOf parse st resPath = (parse resPath st.nextId).1 := by
      unfold masterOf
      rw [h0]
    have hlk : ((((parse resPath st.nextId).1).path,
          (parse resPath st.nextId).1) :: st.fragmentCache).lookup resPath
        = some (parse resPath st.nextId).1 := by
      rw [lookup_cons_eq, if_pos (hpath resPath st.nextId).symm]
    have e2 : getOrParseFragment parse
          { fragmentCache := (((parse resPath st.nextId).1).path,
              (parse resPath st.nextId).1) :: st.fragmentCache,
            nextId := (cloneNode ((parse resPath st.nextId).1).dom
              (parse resPath st.nextId).2).2 } resPath
        = ({ path := ((parse resPath st.nextId).1).path,
             dom := (cloneNode ((parse resPath st.nextId).1).dom
               (cloneNode ((parse resPath st.nextId).1).dom
                 (parse resPath st.nextId).2).2).1 },
           { fragmentCache := (((parse resPath st.nextId).1).path,
               (parse resPath st.nextId).1) :: st.fragmentCache,
             nextId := (cloneNode ((parse resPath st.nextId).1).dom
               (cloneNode ((parse resPath st.nextId).1).dom
                 (parse resPath st.nextId).2).2).2 }) := by
      unfold getOrParseFragment
      dsimp only
      rw [hlk]
    obtain ⟨hs1, hs2, hn1, hn2, hn12, hne, hm1, hm2⟩ :=
      clone_pair_disjoint ((parse resPath st.nextId).1).dom
        (parse resPath st.nextId).2 (parse resPath st.nextId).2
        (hfresh resPath st.nextId).1 le_rfl
    rw [e1, eM]
    dsimp only
    rw [e2]
    dsimp only
    exact ⟨hlk, rfl, rfl, rfl, hs1, hs2, hn1, hn2, hn12, hne, hm1, hm2⟩

/-- A minimal parser: one fresh text node per fragment. -/
def parse0 : String → Nat → Fragment × Nat :=
  fun s n => ({ path := s, dom := DomNode.text n "hello" }, n + 1)

def st0 : PipeState := { fragmentCache := [], nextId := 0 }

theorem getOrParseFragment_clone_spec_witness :
    ((getOrParseFragment parse0 st0 "p").2).fragmentCache.lookup "p"
      = some (masterOf parse0 st0 "p") ∧
    strip ((getOrParseFragment parse0 st0 "p").1).dom
      = strip (masterOf parse0 st0 "p").dom ∧
    ((getOrParseFragment parse0 st0 "p").1).dom
      ≠ ((getOrParseFragment parse0
          (getOrParseFragment parse0 st0 "p").2 "p").1).dom := by
  have h := getOrParseFragment_clone_spec parse0 st0 "p"
    (fun s n => rfl)
    (fun s n => ⟨by intro i hi; simp [parse0, ids] at hi ⊢; omega,
      by simp [parse0]⟩)
    (fun k f hk => absurd hk (List.not_mem_nil _))
  exact ⟨h.1, h.2.2.2.2.1, h.2.2.2.2.2.2.2.2.2.1⟩
